import Mathlib

/-!
Verification of the local credential cache of `mozilla-aws-cli`
(`federated_aws_cli/cache.py`, plus the CLI entry points in
`mozilla_aws_cli/cli.py`), as a shallow embedding in Lean 4.

The embedding models:
 * the filesystem that the cache touches, as a `World` carrying file
   records (structured content, POSIX mode bits, modification time),
   directory modes, clock, and per-path I/O failure switches;
 * file contents structurally: a JSON file stores its parsed value, the
   AWS shared-credentials file stores its section structure; raw bytes
   below this granularity (whitespace in INI values, interpolation
   syntax) are outside the model and noted at the definitions;
 * Python exceptions explicitly: every operation returns a `PyResult`,
   whose `exn` constructor marks an exception escaping to the caller;
 * machine arithmetic over `Nat`/`Int` with explicit `% 2^32` where the
   SHA-256 key derivation overflows.
-/

/-! ### Python string lowering (ConfigParser's default `optionxform`)

`ConfigParser` applies `optionxform = str.lower` to every option (key)
name on both `read` and `set`. `Char.toLower` is exactly the ASCII
fragment of `str.lower`; non-ASCII case mapping is outside the model
(AWS credential keys are ASCII). -/

def pyLower (s : String) : String :=
  String.mk (s.data.map Char.toLower)

theorem charOfNat_toNat {n : Nat} (h : n.isValidChar) : (Char.ofNat n).toNat = n := by
  rw [Char.ofNat, dif_pos h]
  rfl

theorem charToLower_idem (c : Char) : Char.toLower (Char.toLower c) = Char.toLower c := by
  by_cases h : c.toNat ≥ 65 ∧ c.toNat ≤ 90
  · have hv : (c.toNat + 32).isValidChar := by
      unfold Nat.isValidChar
      left
      omega
    have ht : (Char.ofNat (c.toNat + 32)).toNat = c.toNat + 32 := charOfNat_toNat hv
    have h1 : Char.toLower c = Char.ofNat (c.toNat + 32) := by
      unfold Char.toLower
      rw [if_pos h]
    rw [h1]
    unfold Char.toLower
    rw [if_neg]
    omega
  · have h1 : Char.toLower c = c := by
      unfold Char.toLower
      rw [if_neg h]
    rw [h1, h1]

theorem pyLower_idem (s : String) : pyLower (pyLower s) = pyLower s := by
  unfold pyLower
  rw [show (String.mk (s.data.map Char.toLower)).data = s.data.map Char.toLower from rfl]
  rw [List.map_map]
  exact congrArg String.mk (List.map_congr_left fun c _ => charToLower_idem c)

/-! ### SHA-256 (`hashlib.sha256(...).hexdigest()`)

The cache derives every file name by hashing the raw identifier (URL,
ARN, issuer) with SHA-256 and hex-encoding the digest. Implemented
over `Nat` with explicit `% 2^32`. -/

def M32 : Nat := 4294967296

def rotr (n x : Nat) : Nat := ((x >>> n) ||| (x <<< (32 - n))) % M32

def bsig0 (x : Nat) : Nat := rotr 2 x ^^^ rotr 13 x ^^^ rotr 22 x

def bsig1 (x : Nat) : Nat := rotr 6 x ^^^ rotr 11 x ^^^ rotr 25 x

def ssig0 (x : Nat) : Nat := rotr 7 x ^^^ rotr 18 x ^^^ (x >>> 3)

def ssig1 (x : Nat) : Nat := rotr 17 x ^^^ rotr 19 x ^^^ (x >>> 10)

def chFn (x y z : Nat) : Nat := (x &&& y) ^^^ ((x ^^^ 4294967295) &&& z)

def majFn (x y z : Nat) : Nat := (x &&& y) ^^^ (x &&& z) ^^^ (y &&& z)

structure Sha256State where
  a : Nat
  b : Nat
  c : Nat
  d : Nat
  e : Nat
  f : Nat
  g : Nat
  h : Nat

def sha256K : List Nat :=
  [1116352408, 1899447441, 3049323471, 3921009573, 961987163, 1508970993,
   2453635748, 2870763221, 3624381080, 310598401, 607225278, 1426881987,
   1925078388, 2162078206, 2614888103, 3248222580, 3835390401, 4022224774,
   264347078, 604807628, 770255983, 1249150122, 1555081692, 1996064986,
   2554220882, 2821834349, 2952996808, 3210313671, 3336571891, 3584528711,
   113926993, 338241895, 666307205, 773529912, 1294757372, 1396182291,
   1695183700, 1986661051, 2177026350, 2456956037, 2730485921, 2820302411,
   3259730800, 3345764771, 3516065817, 3600352804, 4094571909, 275423344,
   430227734, 506948616, 659060556, 883997877, 958139571, 1322822218,
   1537002063, 1747873779, 1955562222, 2024104815, 2227730452, 2361852424,
   2428436474, 2756734187, 3204031479, 3329325298]

def sha256Init : Sha256State :=
  ⟨1779033703, 3144134277, 1013904242, 2773480762,
   1359893119, 2600822924, 528734635, 1541459225⟩

def sha256Round (s : Sha256State) (kw : Nat × Nat) : Sha256State :=
  let t1 := (s.h + bsig1 s.e + chFn s.e s.f s.g + kw.1 + kw.2) % M32
  let t2 := (bsig0 s.a + majFn s.a s.b s.c) % M32
  ⟨(t1 + t2) % M32, s.a, s.b, s.c, (s.d + t1) % M32, s.e, s.f, s.g⟩

def wordsOfBlock (blk : List Nat) : List Nat :=
  (List.range 16).map fun i =>
    blk.getD (4 * i) 0 * 16777216 + blk.getD (4 * i + 1) 0 * 65536 +
      blk.getD (4 * i + 2) 0 * 256 + blk.getD (4 * i + 3) 0

def sha256Schedule (blk : List Nat) : List Nat :=
  (List.range 48).foldl
    (fun ws t =>
      ws ++ [(ssig1 (ws.getD (t + 14) 0) + ws.getD (t + 9) 0 +
              ssig0 (ws.getD (t + 1) 0) + ws.getD t 0) % M32])
    (wordsOfBlock blk)

def sha256Compress (st : Sha256State) (blk : List Nat) : Sha256State :=
  let s := (sha256K.zip (sha256Schedule blk)).foldl sha256Round st
  ⟨(st.a + s.a) % M32, (st.b + s.b) % M32, (st.c + s.c) % M32, (st.d + s.d) % M32,
   (st.e + s.e) % M32, (st.f + s.f) % M32, (st.g + s.g) % M32, (st.h + s.h) % M32⟩

def sha256Pad (msg : List Nat) : List Nat :=
  msg ++ [128] ++ List.replicate ((119 - msg.length % 64) % 64) 0 ++
    (List.range 8).map fun i => ((msg.length * 8) >>> (8 * (7 - i))) % 256

def sha256Digest (msg : List Nat) : Sha256State :=
  let p := sha256Pad msg
  (List.range (p.length / 64)).foldl (fun st i => sha256Compress st ((p.drop (64 * i)).take 64))
    sha256Init

/-- UTF-8 encoding of one character (the model of `str.encode("utf-8")`). -/
def utf8Char (c : Char) : List Nat :=
  let n := c.toNat
  if n < 128 then [n]
  else if n < 2048 then [192 + n / 64, 128 + n % 64]
  else if n < 65536 then [224 + n / 4096, 128 + n / 64 % 64, 128 + n % 64]
  else [240 + n / 262144, 128 + n / 4096 % 64, 128 + n / 64 % 64, 128 + n % 64]

def utf8Bytes (s : String) : List Nat :=
  s.data.foldr (fun c acc => utf8Char c ++ acc) []

def nibbleChar (n : Nat) : Char :=
  if n < 10 then Char.ofNat (48 + n) else Char.ofNat (87 + n)

def hexWordChars (w : Nat) : List Char :=
  [nibbleChar (w / 268435456 % 16), nibbleChar (w / 16777216 % 16),
   nibbleChar (w / 1048576 % 16), nibbleChar (w / 65536 % 16),
   nibbleChar (w / 4096 % 16), nibbleChar (w / 256 % 16),
   nibbleChar (w / 16 % 16), nibbleChar (w % 16)]

/-- `sha256(s.encode("utf-8")).hexdigest()` -/
def sha256Hex (s : String) : String :=
  let st := sha256Digest (utf8Bytes s)
  String.mk (hexWordChars st.a ++ hexWordChars st.b ++ hexWordChars st.c ++ hexWordChars st.d ++
             hexWordChars st.e ++ hexWordChars st.f ++ hexWordChars st.g ++ hexWordChars st.h)

theorem sha256Hex_length (s : String) : (sha256Hex s).length = 64 := rfl

/-- A lower-case hexadecimal digit, as produced by `hexdigest()`. -/
def IsHexDigitChar (c : Char) : Prop :=
  (48 ≤ c.toNat ∧ c.toNat ≤ 57) ∨ (97 ≤ c.toNat ∧ c.toNat ≤ 102)

theorem nibbleChar_hex (x : Nat) : IsHexDigitChar (nibbleChar (x % 16)) := by
  have h16 : x % 16 < 16 := Nat.mod_lt _ (by omega)
  unfold nibbleChar IsHexDigitChar
  by_cases h : x % 16 < 10
  · rw [if_pos h]
    have hv : (48 + x % 16).isValidChar := by
      unfold Nat.isValidChar
      left
      omega
    rw [charOfNat_toNat hv]
    omega
  · rw [if_neg h]
    have hv : (87 + x % 16).isValidChar := by
      unfold Nat.isValidChar
      left
      omega
    rw [charOfNat_toNat hv]
    omega

theorem sha256Hex_chars (s : String) : ∀ c ∈ (sha256Hex s).data, IsHexDigitChar c := by
  intro c hc
  have : (sha256Hex s).data =
      hexWordChars (sha256Digest (utf8Bytes s)).a ++ hexWordChars (sha256Digest (utf8Bytes s)).b ++
      hexWordChars (sha256Digest (utf8Bytes s)).c ++ hexWordChars (sha256Digest (utf8Bytes s)).d ++
      hexWordChars (sha256Digest (utf8Bytes s)).e ++ hexWordChars (sha256Digest (utf8Bytes s)).f ++
      hexWordChars (sha256Digest (utf8Bytes s)).g ++ hexWordChars (sha256Digest (utf8Bytes s)).h := by
    simp [sha256Hex, List.append_assoc]
  rw [this] at hc
  simp only [List.mem_append, hexWordChars, List.mem_cons, List.not_mem_nil, or_false] at hc
  rcases hc with ((((((h | h) | h) | h) | h) | h) | h) | h <;>
    rcases h with h | h | h | h | h | h | h | h <;>
    (subst h; exact nibbleChar_hex _)

/-! ### JSON values (`json.load` / `json.dump`)

A cache file that holds JSON stores its parsed value; `json.dump`
followed by `json.load` round-trips such a value, so the model keeps
the structured form. Numbers are restricted to integers (the only
numeric JSON fields the cache consumes are epoch seconds). -/

inductive JVal where
  | jnull : JVal
  | jbool : Bool → JVal
  | jnum : Int → JVal
  | jstr : String → JVal
  | jarr : List JVal → JVal
  | jobj : List (String × JVal) → JVal

/-- Python `obj[key]` on a parsed JSON object (first binding wins, as
`json.load` keeps the last duplicate key; the model stores the already
de-duplicated object so lookup order is immaterial). -/
def lookupField : List (String × JVal) → String → Option JVal
  | [], _ => none
  | (k, v) :: rest, key => if k = key then some v else lookupField rest key

/-! ### `datetime.strptime(s, "%Y-%m-%dT%H:%M:%SZ")` and `timestamp`

`strptime` matches `%Y` against exactly four digits and the other
fields against one or two digits with the indicated ranges, then the
`datetime` constructor validates the calendar date; any failure raises
`ValueError`. Greedy two-digit scanning plus a range check is
observationally equivalent to the CPython regexes here because every
field is followed by a non-digit separator. The `%S` regex admits leap
seconds 60 and 61 but the constructor rejects them, so the net valid
range is 0..59, which the model checks directly. -/

structure PyDateTime where
  year : Nat
  month : Nat
  day : Nat
  hour : Nat
  minute : Nat
  second : Nat
deriving DecidableEq, Repr

def takeDigits : Nat → List Char → List Char × List Char
  | 0, cs => ([], cs)
  | _ + 1, [] => ([], [])
  | n + 1, c :: cs =>
    if c.isDigit then
      let r := takeDigits n cs
      (c :: r.1, r.2)
    else ([], c :: cs)

def digitsVal (ds : List Char) : Nat :=
  ds.foldl (fun a c => a * 10 + (c.toNat - 48)) 0

def parseNum (minL maxL : Nat) (cs : List Char) : Option (Nat × List Char) :=
  let r := takeDigits maxL cs
  if r.1.length < minL then none else some (digitsVal r.1, r.2)

def expectChar (c : Char) : List Char → Option (List Char)
  | [] => none
  | x :: xs => if x = c then some xs else none

def isLeapYear (y : Nat) : Bool :=
  y % 4 == 0 && (y % 100 != 0 || y % 400 == 0)

def daysInMonth (y m : Nat) : Nat :=
  if m = 2 then (if isLeapYear y then 29 else 28)
  else if m = 4 ∨ m = 6 ∨ m = 9 ∨ m = 11 then 30
  else 31

def strptimeExpiration (s : String) : Option PyDateTime := do
  let cs := s.data
  let (y, cs) ← parseNum 4 4 cs
  let cs ← expectChar '-' cs
  let (mo, cs) ← parseNum 1 2 cs
  let cs ← expectChar '-' cs
  let (d, cs) ← parseNum 1 2 cs
  let cs ← expectChar 'T' cs
  let (h, cs) ← parseNum 1 2 cs
  let cs ← expectChar ':' cs
  let (mi, cs) ← parseNum 1 2 cs
  let cs ← expectChar ':' cs
  let (sec, cs) ← parseNum 1 2 cs
  let cs ← expectChar 'Z' cs
  -- "unconverted data remains" is a ValueError
  if cs.isEmpty ∧ 1 ≤ y ∧ 1 ≤ mo ∧ mo ≤ 12 ∧ 1 ≤ d ∧ d ≤ daysInMonth y mo ∧
      h ≤ 23 ∧ mi ≤ 59 ∧ sec ≤ 59 then
    some ⟨y, mo, d, h, mi, sec⟩
  else none

/-- Days from 0000-03-01 to the given civil date (Gregorian, proleptic). -/
def civilDays (y m d : Nat) : Nat :=
  let yy := if m ≤ 2 then y - 1 else y
  let era := yy / 400
  let yoe := yy % 400
  let mp := if m > 2 then m - 3 else m + 9
  let doy := (153 * mp + 2) / 5 + (d - 1)
  let doe := yoe * 365 + yoe / 4 + doy - yoe / 100
  era * 146097 + doe

/-- The source's `timestamp(dt)`: epoch seconds of a parsed expiration.
The Python 3 branch calls `dt.timestamp()` on a naive datetime, which
interprets it in the process's local timezone; the model fixes the
timezone to UTC, which is what the Python 2 branch's comment ("this
really only works if it's in UTC") and the wire format require. -/
def timestampOf (dt : PyDateTime) : Int :=
  ((civilDays dt.year dt.month dt.day : Int) - 719468) * 86400 +
    dt.hour * 3600 + dt.minute * 60 + dt.second

/-! ### The filesystem world -/

/-- Sections of an INI file: ordered section list, each an ordered
key/value list. This is `ConfigParser`'s observable state (the model of
the file's bytes; rendering is `renderIni` below). -/
abbrev Sections : Type := List (String × List (String × String))

/-- Structured file content. `invalid` stands for bytes that neither
`json.load` nor `ConfigParser` accepts; `text` is a raw string payload
(as written for non-dict tokens), which `json.load` rejects and which
`ConfigParser` accepts only when empty. -/
inductive FileData where
  | json : JVal → FileData
  | ini : Sections → FileData
  | text : String → FileData
  | invalid : FileData

structure FileRec where
  data : FileData
  mode : Nat
  mtime : Int

structure World where
  files : String → Option FileRec
  dirs : String → Option Nat
  mkdirOk : Bool
  mkdirMode : Nat
  chmodOk : Bool
  openFailed : String → Bool
  writeFailed : String → Bool
  now : Int
  jwtDecode : String → JVal → String → Except Unit (List (String × JVal))

/-- The per-user configuration root `DOT_DIR` comes from
`federated_aws_cli/config.py`, which is not part of the sources under
review; the cache treats it as an opaque path constant. -/
def DOT_DIR : String := "/h/.maws"

def cache_dir : String := DOT_DIR ++ "/cache"

def credentialsPath : String := DOT_DIR ++ "/credentials"

def rolemapPath (url : String) : String := cache_dir ++ "/rolemap_" ++ sha256Hex url

def idTokenPath (issuer clientId : String) : String :=
  cache_dir ++ "/id_" ++ sha256Hex issuer ++ "_" ++ clientId

def stsPath (roleArn : String) : String := cache_dir ++ "/stscreds_" ++ sha256Hex roleArn

def CLOCK_SKEW_ALLOWANCE : Int := 300

def GROUP_ROLE_MAP_CACHE_TIME : Int := 3600

def setFile (w : World) (path : String) (r : FileRec) : World :=
  { w with files := fun p => if p = path then some r else w.files p }

def setDirMode (w : World) (path : String) (m : Nat) : World :=
  { w with dirs := fun p => if p = path then some m else w.dirs p }

/-- `_fix_permissions(path, permissions)`: `os.chmod` guarded by
try/except; `chmod` on a missing path raises, reported as `False`. -/
def fix_permissions (w : World) (path : String) (perms : Nat) : World × Bool :=
  if w.chmodOk then
    match w.files path with
    | some r => (setFile w path { r with mode := perms }, true)
    | none =>
      match w.dirs path with
      | some _ => (setDirMode w path perms, true)
      | none => (w, false)
  else (w, false)

/-- `_readable_by_others(path, fix=True)`. All call sites guard with
`os.path.exists(path)` first, so the missing-file branch (where
`os.stat` would raise) is unreachable; it reports `True` so that, were
it reached, the callers would treat the file as unusable. -/
def readable_by_others (w : World) (path : String) (fix : Bool) : World × Bool :=
  match w.files path with
  | none => (w, true)
  | some r =>
    let ro : Bool := (r.mode &&& 56 != 0) || (r.mode &&& 7 != 0)
    if ro && fix then
      let res := fix_permissions w path 384
      (res.1, !res.2)
    else (w, ro)

/-- The file left behind when `_safe_write`'s `open` with
`O_CREAT | O_TRUNC` succeeded but the subsequent write failed: content
truncated (the failure is modelled at the first `write` call), mode as
for `_safe_write` below, mtime updated. -/
def truncatedRec (w : World) (path : String) : FileRec :=
  { data := FileData.text ""
    mode := match w.files path with
            | some r => r.mode
            | none => 384
    mtime := w.now }

/-- `_safe_write(path)` with the payload written inside the context:
`os.open(path, O_WRONLY | O_CREAT | O_TRUNC, 0o600)` creates a missing
file with mode `0600` but keeps the existing mode of a pre-existing
file (the 0600 applies only at creation); `False` means an
`IOError`/`OSError` was raised (to be caught, or not, by the caller). -/
def safe_write (w : World) (path : String) (payload : FileData) : World × Bool :=
  if w.openFailed path then (w, false)
  else if w.writeFailed path then (setFile w path (truncatedRec w path), false)
  else
    (setFile w path
      { data := payload
        mode := match w.files path with
                | some r => r.mode
                | none => 384
        mtime := w.now }, true)

/-- `verify_dir_permissions(path)`: if the path exists, require owner
rwx and no group/other bits (`os.path.exists` is also true for a plain
file, whose mode is then checked the same way); otherwise `os.mkdir`
(mode set by the process umask, `w.mkdirMode`) followed by
`_fix_permissions(path, 0o700)`. -/
def verify_dir_permissions (w : World) (path : String) : World × Bool :=
  match w.files path with
  | some r => (w, (r.mode &&& 448 == 448) && !(r.mode &&& 56 != 0) && !(r.mode &&& 7 != 0))
  | none =>
    match w.dirs path with
    | some mode => (w, (mode &&& 448 == 448) && !(mode &&& 56 != 0) && !(mode &&& 7 != 0))
    | none =>
      if w.mkdirOk then fix_permissions (setDirMode w path w.mkdirMode) path 448
      else (w, false)

/-- Module initialization:
`safe = verify_dir_permissions(DOT_DIR) and verify_dir_permissions(cache_dir)`
(short-circuiting `and`). -/
def initCache (w : World) : World × Bool :=
  let r1 := verify_dir_permissions w DOT_DIR
  if r1.2 then
    let r2 := verify_dir_permissions r1.1 cache_dir
    (r2.1, r2.2)
  else (r1.1, false)

/-- The cache module's process state: the filesystem world plus the
global `safe` flag computed at import time (and cleared by
`disable_caching`). -/
structure CacheProc where
  world : World
  safe : Bool

/-- Exceptions that can escape a cache operation to its caller. -/
inductive PyErr where
  | valueError : PyErr
  | keyError : PyErr
  | typeError : PyErr
  | configError : PyErr
  | attrError : PyErr
deriving DecidableEq, Repr

/-- Result of one Python call: a returned value (`ret none` is Python's
`None`) or an escaped exception. -/
inductive PyResult (α : Type) where
  | ret : Option α → PyResult α
  | exn : PyErr → PyResult α

/-! ### ConfigParser state and the credentials merge

`config.set(section, key, value)` stores
`sections[section][optionxform(key)] = value`: it overwrites an
existing option in place (dict update keeps position) and appends a
new option at the end. `config.add_section` appends an empty section.
Values are stored raw; `BasicInterpolation`'s handling of `%` in
values and whitespace normalization on re-reading are below the
model's granularity (AWS keys and tokens contain neither). -/

def keysOf (l : List (String × String)) : List String := l.map Prod.fst

/-- First-binding lookup in an association list (how both a parsed
section's option dict and the section dict itself are observed). -/
def alookup {α : Type} : List (String × α) → String → Option α
  | [], _ => none
  | (k1, v1) :: rest, k => if k1 = k then some v1 else alookup rest k

def lookupKey (e : List (String × String)) (k : String) : Option String := alookup e k

def setKey : List (String × String) → String → String → List (String × String)
  | [], k, v => [(k, v)]
  | (k1, v1) :: rest, k, v => if k1 = k then (k, v) :: rest else (k1, v1) :: setKey rest k v

def secNames (c : Sections) : List String := c.map Prod.fst

def findSec (c : Sections) (sec : String) : Option (List (String × String)) := alookup c sec

/-- `config.has_section` / `config.add_section`. -/
def ensureSection (c : Sections) (sec : String) : Sections :=
  if sec ∈ secNames c then c else c ++ [(sec, [])]

/-- `config.set` acting on the section list: updates the (first) entry
named `sec`; a no-op when the section is missing (`config.set` would
raise `NoSectionError`, but every call site runs after `add_section`). -/
def setInSection : Sections → String → String → String → Sections
  | [], _, _, _ => []
  | (s1, e) :: rest, sec, k, v =>
    if s1 = sec then (s1, setKey e k v) :: rest else (s1, e) :: setInSection rest sec k v

/-- One iteration of the merge loop of `write_aws_shared_credentials`:
`add_section` if missing, then `config.set(section, key, value)` for
each pair (the key lowered by `optionxform`). -/
def applySection (c : Sections) (entry : String × List (String × String)) : Sections :=
  entry.2.foldl (fun acc kv => setInSection acc entry.1 (pyLower kv.1) kv.2)
    (ensureSection c entry.1)

def mergeSections (c : Sections) (n : Sections) : Sections := n.foldl applySection c

/-- `config._sections = OrderedDict(sorted(viewitems(config._sections), key=lambda t: t[0]))`.
CPython's `sorted` is stable; insertion sort with `≤` on the section
name is extensionally the same stable sort. -/
def sortSections (c : Sections) : Sections :=
  List.insertionSort (fun a b => a.1 ≤ b.1) c

/-- Well-formedness that `ConfigParser` enforces when reading a file:
no duplicate section names and, per section, no duplicate option names
after `optionxform` (violations raise `configparser.Error`). -/
def WfIni (c : Sections) : Prop :=
  (secNames c).Nodup ∧ ∀ e ∈ c, (keysOf e.2).Nodup

instance (c : Sections) : Decidable (WfIni c) := by
  unfold WfIni
  exact instDecidableAnd

def lowerPairs (kvs : List (String × String)) : List (String × String) :=
  kvs.map fun kv => (pyLower kv.1, kv.2)

/-- What `ConfigParser.read_file` yields from the stored section
structure: section names kept, option names passed through
`optionxform`. -/
def lowerKeys (c : Sections) : Sections :=
  c.map fun sec => (sec.1, lowerPairs sec.2)

/-- `config.write(f)` output bytes for a section structure (the
DEFAULT section is always empty here and is not emitted). -/
def renderKv (kv : String × String) : String := kv.1 ++ " = " ++ kv.2 ++ "\n"

def renderSection (sec : String × List (String × String)) : String :=
  "[" ++ sec.1 ++ "]\n" ++ String.join (sec.2.map renderKv) ++ "\n"

def renderIni (c : Sections) : String := String.join (c.map renderSection)

/-! ### The cache operations

Each `@_requires_safe_cache_dir`-decorated function becomes a function
on `CacheProc` that returns `(st, ret none)` untouched when the global
`safe` flag is false. -/

/-- `read_aws_shared_credentials()`: returns a `ConfigParser` (modelled
as its section structure). Missing file, unsafe permissions, and read
`IOError` all yield the empty configuration; content that is not valid
INI raises `configparser.Error` (only `IOError`/`OSError` are caught). -/
def read_aws_shared_credentials (st : CacheProc) : CacheProc × PyResult Sections :=
  if st.safe then
    match st.world.files credentialsPath with
    | none => (st, .ret (some []))
    | some _ =>
      let res := readable_by_others st.world credentialsPath true
      let st1 : CacheProc := { st with world := res.1 }
      if res.2 then (st1, .ret (some []))
      else if res.1.openFailed credentialsPath then (st1, .ret (some []))
      else
        match res.1.files credentialsPath with
        | some { data := FileData.ini secs, .. } =>
          if WfIni (lowerKeys secs) then (st1, .ret (some (lowerKeys secs)))
          else (st1, .exn .configError)
        | some { data := FileData.text s, .. } =>
          if s = "" then (st1, .ret (some [])) else (st1, .exn .configError)
        | _ => (st1, .exn .configError)
  else (st, .ret none)

/-- `write_aws_shared_credentials(credentials)`: read the existing
file, merge the new sections into it, sort all sections by name, then
write through `_safe_write`; returns the path on success and `None`
when the write raised (the exception is caught). The inner read is
reached only with `safe` true, so its `ret none` branch cannot occur
(Python would raise `AttributeError` on `None.has_section`). -/
def write_aws_shared_credentials (st : CacheProc) (credentials : Sections) :
    CacheProc × PyResult String :=
  if st.safe then
    match read_aws_shared_credentials st with
    | (st1, .ret (some config)) =>
      let sorted := sortSections (mergeSections config credentials)
      let res := safe_write st1.world credentialsPath (.ini sorted)
      if res.2 then ({ st1 with world := res.1 }, .ret (some credentialsPath))
      else ({ st1 with world := res.1 }, .ret none)
    | (st1, .ret none) => (st1, .exn .attrError)
    | (st1, .exn e) => (st1, .exn e)
  else (st, .ret none)

/-- `read_group_role_map(url)`: keyed by `rolemap_<sha256(url)>`; a
miss when absent, unsafely readable, or older than
`GROUP_ROLE_MAP_CACHE_TIME`; read `IOError` is caught as a miss, but
content that is not JSON raises `ValueError` from `json.load`. -/
def read_group_role_map (st : CacheProc) (url : String) : CacheProc × PyResult JVal :=
  if st.safe then
    let path := rolemapPath url
    match st.world.files path with
    | none => (st, .ret none)
    | some _ =>
      let res := readable_by_others st.world path true
      let st1 : CacheProc := { st with world := res.1 }
      if res.2 then (st1, .ret none)
      else
        let mtime := match res.1.files path with
                     | some r => r.mtime
                     | none => 0
        if res.1.now - mtime > GROUP_ROLE_MAP_CACHE_TIME then (st1, .ret none)
        else if res.1.openFailed path then (st1, .ret none)
        else
          match res.1.files path with
          | some { data := FileData.json v, .. } => (st1, .ret (some v))
          | _ => (st1, .exn .valueError)
  else (st, .ret none)

/-- `write_group_role_map(url, role_map)`: `_safe_write` of the JSON
dump; any `IOError`/`OSError` is caught and the function returns
`None` either way. -/
def write_group_role_map (st : CacheProc) (url : String) (roleMap : JVal) :
    CacheProc × PyResult Unit :=
  if st.safe then
    let res := safe_write st.world (rolemapPath url) (.json roleMap)
    ({ st with world := res.1 }, .ret none)
  else (st, .ret none)

/-- `read_id_token(issuer, client_id, key=None)`: keyed by
`id_<sha256(issuer)>_<client_id>`. The permission check runs twice
(both with `fix=True`); a decode failure (`jose.exceptions.JOSEError`)
is a miss; a missing or non-numeric `exp` claim raises `TypeError`
(`None - time.time()`); a non-JSON file raises `ValueError`; a
non-string `id_token` field raises inside `jwt.decode`
(`AttributeError`, not a `JOSEError`); a missing field raises
`KeyError`. The token validity bound is
`exp - now > CLOCK_SKEW_ALLOWANCE`, strictly. -/
def read_id_token (st : CacheProc) (issuer clientId : Option String) (key : JVal) :
    CacheProc × PyResult JVal :=
  if st.safe then
    match issuer, clientId with
    | some issuerS, some cid =>
      let path := idTokenPath issuerS cid
      match st.world.files path with
      | none => (st, .ret none)
      | some _ =>
        let res := readable_by_others st.world path true
        let st1 : CacheProc := { st with world := res.1 }
        if res.2 then (st1, .ret none)
        else
          let res2 := readable_by_others res.1 path true
          let st2 : CacheProc := { st1 with world := res2.1 }
          if !res2.2 then
            if res2.1.openFailed path then (st2, .ret none)
            else
              match res2.1.files path with
              | some { data := FileData.json tok, .. } =>
                match tok with
                | .jobj fields =>
                  match lookupField fields "id_token" with
                  | some (.jstr rawTok) =>
                    match res2.1.jwtDecode rawTok key cid with
                    | .error _ => (st2, .ret none)
                    | .ok claims =>
                      match lookupField claims "exp" with
                      | some (.jnum e) =>
                        if e - res2.1.now > CLOCK_SKEW_ALLOWANCE then (st2, .ret (some tok))
                        else (st2, .ret none)
                      | some _ => (st2, .exn .typeError)
                      | none => (st2, .exn .typeError)
                  | some _ => (st2, .exn .attrError)
                  | none => (st2, .exn .keyError)
                | _ => (st2, .exn .typeError)
              | _ => (st2, .exn .valueError)
          else (st2, .ret none)
    | _, _ => (st, .ret none)
  else (st, .ret none)

/-- `write_id_token(issuer, client_id, token)`: `json.dump` for a dict
token, `f.write` for a string token; `f.write` on any other type
raises `TypeError` after the file was already truncated by
`_safe_write`'s `open`. -/
def write_id_token (st : CacheProc) (issuer clientId : Option String) (token : JVal) :
    CacheProc × PyResult Unit :=
  if st.safe then
    match issuer, clientId with
    | some issuerS, some cid =>
      let path := idTokenPath issuerS cid
      match token with
      | .jobj fields =>
        let res := safe_write st.world path (.json (.jobj fields))
        ({ st with world := res.1 }, .ret none)
      | .jstr s =>
        let res := safe_write st.world path (.text s)
        ({ st with world := res.1 }, .ret none)
      | _ =>
        if st.world.openFailed path then (st, .ret none)
        else ({ st with world := setFile st.world path (truncatedRec st.world path) },
              .exn .typeError)
    | _, _ => (st, .ret none)
  else (st, .ret none)

/-- `read_sts_credentials(role_arn)`: keyed by
`stscreds_<sha256(role_arn)>`. Only `IOError`/`OSError` are caught:
non-JSON content raises `ValueError`, a missing `Expiration` raises
`KeyError`, a non-object document or non-string expiration raises
`TypeError`, and an unparsable expiration string raises `ValueError`
from `strptime`. Valid iff `timestamp(exp) - now > CLOCK_SKEW_ALLOWANCE`. -/
def read_sts_credentials (st : CacheProc) (roleArn : String) : CacheProc × PyResult JVal :=
  if st.safe then
    let path := stsPath roleArn
    match st.world.files path with
    | none => (st, .ret none)
    | some _ =>
      let res := readable_by_others st.world path true
      let st1 : CacheProc := { st with world := res.1 }
      if res.2 then (st1, .ret none)
      else if res.1.openFailed path then (st1, .ret none)
      else
        match res.1.files path with
        | some { data := FileData.json sts, .. } =>
          match sts with
          | .jobj fields =>
            match lookupField fields "Expiration" with
            | some (.jstr expStr) =>
              match strptimeExpiration expStr with
              | some dt =>
                if timestampOf dt - res.1.now > CLOCK_SKEW_ALLOWANCE then (st1, .ret (some sts))
                else (st1, .ret none)
              | none => (st1, .exn .valueError)
            | some _ => (st1, .exn .typeError)
            | none => (st1, .exn .keyError)
          | _ => (st1, .exn .typeError)
        | _ => (st1, .exn .valueError)
  else (st, .ret none)

/-- `write_sts_credentials(role_arn, sts_creds)`: `_safe_write` of the
JSON dump; `IOError`/`OSError` caught; returns `None` either way. -/
def write_sts_credentials (st : CacheProc) (roleArn : String) (stsCreds : JVal) :
    CacheProc × PyResult Unit :=
  if st.safe then
    let res := safe_write st.world (stsPath roleArn) (.json stsCreds)
    ({ st with world := res.1 }, .ret none)
  else (st, .ret none)

/-- Modelled from the spec: `disable_caching()` lives in
`mozilla_aws_cli/cache.py`, which is not among the sources under
review (only its caller `mozilla_aws_cli/cli.py` is). Per the spec it
is a process-wide switch: once invoked, all subsequent read/write
calls behave as permanent misses/no-ops for the remainder of the
process lifetime — modelled as clearing the module's global `safe`
gate that every operation checks. -/
def disable_caching (st : CacheProc) : CacheProc :=
  { st with safe := false }

/-! ### The collaborator-facing call surface as one step relation -/

inductive CVal where
  | cfg : Sections → CVal
  | jv : JVal → CVal
  | str : String → CVal

inductive CacheOp where
  | readShared : CacheOp
  | writeShared : Sections → CacheOp
  | readRoleMap : String → CacheOp
  | writeRoleMap : String → JVal → CacheOp
  | readIdToken : Option String → Option String → JVal → CacheOp
  | writeIdToken : Option String → Option String → JVal → CacheOp
  | readSts : String → CacheOp
  | writeSts : String → JVal → CacheOp
  | disable : CacheOp

def mapResult (f : α → CVal) : PyResult α → PyResult CVal
  | .ret none => .ret none
  | .ret (some a) => .ret (some (f a))
  | .exn e => .exn e

def runOp (st : CacheProc) : CacheOp → CacheProc × PyResult CVal
  | .readShared => let r := read_aws_shared_credentials st; (r.1, mapResult CVal.cfg r.2)
  | .writeShared n => let r := write_aws_shared_credentials st n; (r.1, mapResult CVal.str r.2)
  | .readRoleMap url => let r := read_group_role_map st url; (r.1, mapResult CVal.jv r.2)
  | .writeRoleMap url m =>
    let r := write_group_role_map st url m
    (r.1, mapResult (fun _ => CVal.str "") r.2)
  | .readIdToken iss cid key => let r := read_id_token st iss cid key; (r.1, mapResult CVal.jv r.2)
  | .writeIdToken iss cid tok =>
    let r := write_id_token st iss cid tok
    (r.1, mapResult (fun _ => CVal.str "") r.2)
  | .readSts arn => let r := read_sts_credentials st arn; (r.1, mapResult CVal.jv r.2)
  | .writeSts arn c =>
    let r := write_sts_credentials st arn c
    (r.1, mapResult (fun _ => CVal.str "") r.2)
  | .disable => (disable_caching st, .ret none)

/-- Run a sequence of cache calls, collecting each call's result. -/
def runAll (st : CacheProc) : List CacheOp → CacheProc × List (PyResult CVal)
  | [] => (st, [])
  | op :: rest =>
    let r := runOp st op
    let rr := runAll r.1 rest
    (rr.1, r.2 :: rr.2)

/-! ### Guard behaviour: an unsafe cache root disables everything -/

theorem read_aws_shared_credentials_gated (st : CacheProc) (h : st.safe = false) :
    read_aws_shared_credentials st = (st, .ret none) := by
  simp [read_aws_shared_credentials, h]

theorem write_aws_shared_credentials_gated (st : CacheProc) (n : Sections) (h : st.safe = false) :
    write_aws_shared_credentials st n = (st, .ret none) := by
  simp [write_aws_shared_credentials, h]

theorem read_group_role_map_gated (st : CacheProc) (url : String) (h : st.safe = false) :
    read_group_role_map st url = (st, .ret none) := by
  simp [read_group_role_map, h]

theorem write_group_role_map_gated (st : CacheProc) (url : String) (m : JVal)
    (h : st.safe = false) : write_group_role_map st url m = (st, .ret none) := by
  simp [write_group_role_map, h]

theorem read_id_token_gated (st : CacheProc) (iss cid : Option String) (key : JVal)
    (h : st.safe = false) : read_id_token st iss cid key = (st, .ret none) := by
  simp [read_id_token, h]

theorem write_id_token_gated (st : CacheProc) (iss cid : Option String) (tok : JVal)
    (h : st.safe = false) : write_id_token st iss cid tok = (st, .ret none) := by
  simp [write_id_token, h]

theorem read_sts_credentials_gated (st : CacheProc) (arn : String) (h : st.safe = false) :
    read_sts_credentials st arn = (st, .ret none) := by
  simp [read_sts_credentials, h]

theorem write_sts_credentials_gated (st : CacheProc) (arn : String) (c : JVal)
    (h : st.safe = false) : write_sts_credentials st arn c = (st, .ret none) := by
  simp [write_sts_credentials, h]

/-- Every cache call on a state with `safe = false` is a silent no-op:
same state back, `None` returned, no exception. -/
def GuardedNoop (st : CacheProc) : Prop :=
  read_aws_shared_credentials st = (st, .ret none) ∧
  (∀ url, read_group_role_map st url = (st, .ret none)) ∧
  (∀ iss cid key, read_id_token st iss cid key = (st, .ret none)) ∧
  (∀ arn, read_sts_credentials st arn = (st, .ret none)) ∧
  (∀ n, write_aws_shared_credentials st n = (st, .ret none)) ∧
  (∀ url m, write_group_role_map st url m = (st, .ret none)) ∧
  (∀ iss cid tok, write_id_token st iss cid tok = (st, .ret none)) ∧
  (∀ arn c, write_sts_credentials st arn c = (st, .ret none))

theorem guardedNoop_of_safe_false (st : CacheProc) (h : st.safe = false) : GuardedNoop st :=
  ⟨read_aws_shared_credentials_gated st h,
   fun url => read_group_role_map_gated st url h,
   fun iss cid key => read_id_token_gated st iss cid key h,
   fun arn => read_sts_credentials_gated st arn h,
   fun n => write_aws_shared_credentials_gated st n h,
   fun url m => write_group_role_map_gated st url m h,
   fun iss cid tok => write_id_token_gated st iss cid tok h,
   fun arn c => write_sts_credentials_gated st arn c h⟩

/-- C1: if the cache root (DOT_DIR or its cache subdirectory) fails the
permission invariant at process start, so the global `safe` flag is
computed false, then every cache read returns `None` and every cache
write writes nothing (state unchanged) and returns `None`, without
raising, for all arguments. -/
theorem C1_unsafe_root_disables_cache (w : World) (hinit : (initCache w).2 = false) :
    GuardedNoop ⟨(initCache w).1, (initCache w).2⟩ :=
  guardedNoop_of_safe_false _ (by simp [hinit])

/-- A world whose DOT_DIR exists with permissive mode `0o755`. -/
def wUnsafeRoot : World :=
  { files := fun _ => none
    dirs := fun _ => some 493
    mkdirOk := true
    mkdirMode := 493
    chmodOk := true
    openFailed := fun _ => false
    writeFailed := fun _ => false
    now := 0
    jwtDecode := fun _ _ _ => .error () }

theorem C1_unsafe_root_disables_cache_witness :
    (initCache wUnsafeRoot).2 = false ∧
      GuardedNoop ⟨(initCache wUnsafeRoot).1, (initCache wUnsafeRoot).2⟩ :=
  ⟨by decide, C1_unsafe_root_disables_cache wUnsafeRoot (by decide)⟩

/-! ### `disable_caching` is permanent and process-wide -/

theorem runOp_gated (st : CacheProc) (op : CacheOp) (h : st.safe = false) :
    runOp st op = (st, .ret none) := by
  obtain ⟨w, safe⟩ := st
  cases safe
  · cases op <;>
      simp [runOp, mapResult, disable_caching,
        read_aws_shared_credentials, write_aws_shared_credentials, read_group_role_map,
        write_group_role_map, read_id_token, write_id_token, read_sts_credentials,
        write_sts_credentials]
  · exact absurd h (by simp)

theorem runAll_gated (ops : List CacheOp) (st : CacheProc) (h : st.safe = false) :
    runAll st ops = (st, List.replicate ops.length (.ret none)) := by
  induction ops generalizing st with
  | nil => rfl
  | cons op rest ih =>
    simp only [runAll, runOp_gated st op h, ih st h, List.length_cons, List.replicate_succ]

/-- C10: once `disable_caching()` is invoked, every subsequent cache
call (any sequence of reads and writes) returns a miss (`None`) and
leaves the world untouched, and the switch stays off, for the
remainder of the process lifetime. -/
theorem C10_disable_caching_permanent (st : CacheProc) (ops : List CacheOp) :
    (runAll (disable_caching st) ops).1 = disable_caching st ∧
      (runAll (disable_caching st) ops).1.world = st.world ∧
      (runAll (disable_caching st) ops).1.safe = false ∧
      (runAll (disable_caching st) ops).2 = List.replicate ops.length (.ret none) := by
  have h : (disable_caching st).safe = false := rfl
  rw [runAll_gated ops _ h]
  exact ⟨rfl, rfl, rfl, rfl⟩

/-! ### Characterizing reads on well-permissioned files -/

/-- "Not group- or other-readable": the file-mode condition
`_readable_by_others` checks (and the mode `_safe_write` creates). -/
abbrev ModeClean (m : Nat) : Prop := m &&& 56 = 0 ∧ m &&& 7 = 0

theorem readable_by_others_clean (w : World) (path : String) (b : Bool) (fr : FileRec)
    (hf : w.files path = some fr) (hm : ModeClean fr.mode) :
    readable_by_others w path b = (w, false) := by
  unfold readable_by_others
  rw [hf]
  simp [hm.1, hm.2]

theorem read_sts_credentials_char (st : CacheProc) (arn : String) (fr : FileRec)
    (fields : List (String × JVal)) (expStr : String) (dt : PyDateTime)
    (hsafe : st.safe = true)
    (hf : st.world.files (stsPath arn) = some fr)
    (hm : ModeClean fr.mode)
    (ho : st.world.openFailed (stsPath arn) = false)
    (hd : fr.data = .json (.jobj fields))
    (he : lookupField fields "Expiration" = some (.jstr expStr))
    (hp : strptimeExpiration expStr = some dt) :
    read_sts_credentials st arn =
      (st, if timestampOf dt - st.world.now > CLOCK_SKEW_ALLOWANCE
           then .ret (some (.jobj fields)) else .ret none) := by
  obtain ⟨w, sf⟩ := st
  obtain ⟨data, mode, mtime⟩ := fr
  simp only at hsafe hf hm ho hd
  subst hsafe hd
  unfold read_sts_credentials
  dsimp only
  rw [readable_by_others_clean w (stsPath arn) true _ hf hm]
  dsimp only
  rw [hf]
  dsimp only
  rw [he]
  dsimp only
  rw [hp]
  simp only [ho, if_true, Bool.false_eq_true, if_false]
  split <;> rfl

theorem read_group_role_map_char (st : CacheProc) (url : String) (fr : FileRec)
    (hsafe : st.safe = true)
    (hf : st.world.files (rolemapPath url) = some fr)
    (hm : ModeClean fr.mode)
    (ho : st.world.openFailed (rolemapPath url) = false) :
    read_group_role_map st url =
      (st, if st.world.now - fr.mtime > GROUP_ROLE_MAP_CACHE_TIME then .ret none
           else match fr.data with
                | FileData.json v => .ret (some v)
                | _ => .exn .valueError) := by
  obtain ⟨w, sf⟩ := st
  obtain ⟨data, mode, mtime⟩ := fr
  simp only at hsafe hf hm ho
  subst hsafe
  unfold read_group_role_map
  dsimp only
  rw [readable_by_others_clean w (rolemapPath url) true _ hf hm]
  dsimp only
  rw [hf]
  dsimp only
  simp only [ho, if_true, Bool.false_eq_true, if_false]
  by_cases hexp : w.now - mtime > GROUP_ROLE_MAP_CACHE_TIME
  · rw [if_pos hexp, if_pos hexp]
  · rw [if_neg hexp, if_neg hexp]
    cases data <;> rfl

theorem read_id_token_char (st : CacheProc) (issuerS cid : String) (key : JVal) (fr : FileRec)
    (fields : List (String × JVal)) (rawTok : String)
    (hsafe : st.safe = true)
    (hf : st.world.files (idTokenPath issuerS cid) = some fr)
    (hm : ModeClean fr.mode)
    (ho : st.world.openFailed (idTokenPath issuerS cid) = false)
    (hd : fr.data = .json (.jobj fields))
    (ht : lookupField fields "id_token" = some (.jstr rawTok)) :
    read_id_token st (some issuerS) (some cid) key =
      (st, match st.world.jwtDecode rawTok key cid with
           | .error _ => .ret none
           | .ok claims =>
             match lookupField claims "exp" with
             | some (.jnum e) =>
               if e - st.world.now > CLOCK_SKEW_ALLOWANCE then .ret (some (.jobj fields))
               else .ret none
             | some _ => .exn .typeError
             | none => .exn .typeError) := by
  obtain ⟨w, sf⟩ := st
  obtain ⟨data, mode, mtime⟩ := fr
  simp only at hsafe hf hm ho hd
  subst hsafe hd
  unfold read_id_token
  dsimp only
  rw [readable_by_others_clean w (idTokenPath issuerS cid) true _ hf hm]
  dsimp only
  rw [readable_by_others_clean w (idTokenPath issuerS cid) true _ hf hm]
  dsimp only
  rw [hf]
  dsimp only
  rw [ht]
  simp only [ho, if_true, Bool.false_eq_true, if_false, Bool.not_false]
  cases w.jwtDecode rawTok key cid with
  | error e => rfl
  | ok claims =>
    dsimp only
    cases lookupField claims "exp" with
    | none => rfl
    | some v =>
      cases v with
      | jnum e =>
        dsimp only
        split <;> rfl
      | jnull => rfl
      | jbool b => rfl
      | jstr s2 => rfl
      | jarr l => rfl
      | jobj o => rfl

/-! ### `_readable_by_others` only ever touches the mode bits -/

theorem rbo_openFailed (w : World) (path : String) (b : Bool) :
    (readable_by_others w path b).1.openFailed = w.openFailed := by
  unfold readable_by_others fix_permissions setFile setDirMode
  cases w.files path
  · rfl
  · dsimp only
    split
    · dsimp only
      split <;> rfl
    · rfl

theorem rbo_now (w : World) (path : String) (b : Bool) :
    (readable_by_others w path b).1.now = w.now := by
  unfold readable_by_others fix_permissions setFile setDirMode
  cases w.files path
  · rfl
  · dsimp only
    split
    · dsimp only
      split <;> rfl
    · rfl

theorem rbo_jwtDecode (w : World) (path : String) (b : Bool) :
    (readable_by_others w path b).1.jwtDecode = w.jwtDecode := by
  unfold readable_by_others fix_permissions setFile setDirMode
  cases w.files path
  · rfl
  · dsimp only
    split
    · dsimp only
      split <;> rfl
    · rfl

theorem rbo_files_data (w : World) (path : String) (b : Bool) (q : String) :
    ((readable_by_others w path b).1.files q).map FileRec.data =
      (w.files q).map FileRec.data := by
  unfold readable_by_others fix_permissions setFile setDirMode
  cases hwf : w.files path
  · rfl
  · dsimp only
    split
    · dsimp only
      split
      · dsimp only
        by_cases hq : q = path
        · subst hq
          rw [if_pos rfl, hwf]
          rfl
        · rw [if_neg hq]
      · rfl
    · rfl

theorem rbo_files_mtime (w : World) (path : String) (b : Bool) (q : String) :
    ((readable_by_others w path b).1.files q).map FileRec.mtime =
      (w.files q).map FileRec.mtime := by
  unfold readable_by_others fix_permissions setFile setDirMode
  cases hwf : w.files path
  · rfl
  · dsimp only
    split
    · dsimp only
      split
      · dsimp only
        by_cases hq : q = path
        · subst hq
          rw [if_pos rfl, hwf]
          rfl
        · rw [if_neg hq]
      · rfl
    · rfl

/-! ### C3: the role-map TTL boundary -/

/-- C3 (amended): a role map written at `T0` and read at `T1` on a safe
cache root is a hit — returning the stored map, provided it parses as
JSON — whenever `T1 - T0 ≤ 3600` seconds, and a miss whenever
`T1 - T0 > 3600` seconds irrespective of content: the source compares
with a strict `>`, so a map exactly 3600 seconds old is still served. -/
theorem C3_rolemap_ttl_boundary (st : CacheProc) (url : String) (fr : FileRec)
    (hsafe : st.safe = true)
    (hf : st.world.files (rolemapPath url) = some fr)
    (hm : ModeClean fr.mode)
    (ho : st.world.openFailed (rolemapPath url) = false) :
    (st.world.now - fr.mtime > GROUP_ROLE_MAP_CACHE_TIME →
        read_group_role_map st url = (st, .ret none)) ∧
    (∀ v, fr.data = .json v → st.world.now - fr.mtime ≤ GROUP_ROLE_MAP_CACHE_TIME →
        read_group_role_map st url = (st, .ret (some v))) := by
  rw [read_group_role_map_char st url fr hsafe hf hm ho]
  constructor
  · intro h
    rw [if_pos h]
  · intro v hd hle
    rw [if_neg (not_lt.mpr hle), hd]

/-- A safe world whose (single) cached role map is exactly 3600 seconds
old at read time. -/
def wRoleBoundary : World :=
  { files := fun _ => some { data := .json (.jnum 1), mode := 384, mtime := 0 }
    dirs := fun _ => some 448
    mkdirOk := true
    mkdirMode := 448
    chmodOk := true
    openFailed := fun _ => false
    writeFailed := fun _ => false
    now := 3600
    jwtDecode := fun _ _ _ => .error () }

theorem C3_rolemap_ttl_boundary_counterexample :
    read_group_role_map ⟨wRoleBoundary, true⟩ "https://idp.example/roles" =
      (⟨wRoleBoundary, true⟩, .ret (some (.jnum 1))) ∧
    (read_group_role_map ⟨wRoleBoundary, true⟩ "https://idp.example/roles").2 ≠ .ret none := by
  refine ⟨rfl, ?_⟩
  intro h
  rw [show (read_group_role_map ⟨wRoleBoundary, true⟩ "https://idp.example/roles").2 =
      .ret (some (.jnum 1)) from rfl] at h
  injection h with h2
  exact Option.noConfusion h2

def wRoleMiss : World := { wRoleBoundary with now := 7200 }

theorem C3_rolemap_ttl_boundary_witness :
    read_group_role_map ⟨wRoleBoundary, true⟩ "u" =
      (⟨wRoleBoundary, true⟩, .ret (some (.jnum 1))) ∧
    read_group_role_map ⟨wRoleMiss, true⟩ "u" = (⟨wRoleMiss, true⟩, .ret none) :=
  ⟨(C3_rolemap_ttl_boundary ⟨wRoleBoundary, true⟩ "u" _ rfl rfl (by decide) rfl).2
      (.jnum 1) rfl (by decide),
   (C3_rolemap_ttl_boundary ⟨wRoleMiss, true⟩ "u" _ rfl rfl (by decide) rfl).1 (by decide)⟩

/-! ### C5: the clock-skew validity boundary is exclusive -/

/-- C5: for both STS credentials and cached id tokens, an artifact with
`expiry - now = CLOCK_SKEW_ALLOWANCE` (300 s) is a miss and one with
`expiry - now = CLOCK_SKEW_ALLOWANCE + 1` is a hit: the comparison is
a strict `>` against the allowance. -/
theorem C5_clock_skew_boundary_exclusive :
    (∀ (st : CacheProc) (arn : String) (fr : FileRec) (fields : List (String × JVal))
        (expStr : String) (dt : PyDateTime),
      st.safe = true →
      st.world.files (stsPath arn) = some fr →
      ModeClean fr.mode →
      st.world.openFailed (stsPath arn) = false →
      fr.data = .json (.jobj fields) →
      lookupField fields "Expiration" = some (.jstr expStr) →
      strptimeExpiration expStr = some dt →
      (timestampOf dt - st.world.now = CLOCK_SKEW_ALLOWANCE →
          read_sts_credentials st arn = (st, .ret none)) ∧
      (timestampOf dt - st.world.now = CLOCK_SKEW_ALLOWANCE + 1 →
          read_sts_credentials st arn = (st, .ret (some (.jobj fields))))) ∧
    (∀ (st : CacheProc) (issuerS cid : String) (key : JVal) (fr : FileRec)
        (fields : List (String × JVal)) (rawTok : String)
        (claims : List (String × JVal)) (e : Int),
      st.safe = true →
      st.world.files (idTokenPath issuerS cid) = some fr →
      ModeClean fr.mode →
      st.world.openFailed (idTokenPath issuerS cid) = false →
      fr.data = .json (.jobj fields) →
      lookupField fields "id_token" = some (.jstr rawTok) →
      st.world.jwtDecode rawTok key cid = .ok claims →
      lookupField claims "exp" = some (.jnum e) →
      (e - st.world.now = CLOCK_SKEW_ALLOWANCE →
          read_id_token st (some issuerS) (some cid) key = (st, .ret none)) ∧
      (e - st.world.now = CLOCK_SKEW_ALLOWANCE + 1 →
          read_id_token st (some issuerS) (some cid) key = (st, .ret (some (.jobj fields))))) := by
  constructor
  · intro st arn fr fields expStr dt hsafe hf hm ho hd he hp
    rw [read_sts_credentials_char st arn fr fields expStr dt hsafe hf hm ho hd he hp]
    constructor
    · intro hb
      rw [hb, if_neg (lt_irrefl _)]
    · intro hb
      rw [hb, if_pos (by omega)]
  · intro st issuerS cid key fr fields rawTok claims e hsafe hf hm ho hd ht hdec hexp
    rw [read_id_token_char st issuerS cid key fr fields rawTok hsafe hf hm ho hd ht, hdec]
    dsimp only
    rw [hexp]
    dsimp only
    constructor
    · intro hb
      rw [hb, if_neg (lt_irrefl _)]
    · intro hb
      rw [hb, if_pos (by omega)]

def stsFields : List (String × JVal) :=
  [("Expiration", .jstr "1970-01-02T00:00:00Z"), ("AccessKeyId", .jstr "AK"),
   ("SecretAccessKey", .jstr "SK"), ("SessionToken", .jstr "ST")]

def wStsBoundary : World :=
  { files := fun _ => some { data := .json (.jobj stsFields), mode := 384, mtime := 0 }
    dirs := fun _ => some 448
    mkdirOk := true
    mkdirMode := 448
    chmodOk := true
    openFailed := fun _ => false
    writeFailed := fun _ => false
    now := 86100
    jwtDecode := fun _ _ _ => .error () }

def wStsHit : World := { wStsBoundary with now := 86099 }

def idFields : List (String × JVal) := [("id_token", .jstr "tok")]

def wIdBoundary : World :=
  { wStsBoundary with
    files := fun _ => some { data := .json (.jobj idFields), mode := 384, mtime := 0 }
    now := 100
    jwtDecode := fun _ _ _ => .ok [("exp", .jnum 400)] }

def wIdHit : World := { wIdBoundary with now := 99 }

theorem C5_clock_skew_boundary_exclusive_witness :
    read_sts_credentials ⟨wStsBoundary, true⟩ "arn:x" = (⟨wStsBoundary, true⟩, .ret none) ∧
    read_sts_credentials ⟨wStsHit, true⟩ "arn:x" =
      (⟨wStsHit, true⟩, .ret (some (.jobj stsFields))) ∧
    read_id_token ⟨wIdBoundary, true⟩ (some "https://iss") (some "cid") .jnull =
      (⟨wIdBoundary, true⟩, .ret none) ∧
    read_id_token ⟨wIdHit, true⟩ (some "https://iss") (some "cid") .jnull =
      (⟨wIdHit, true⟩, .ret (some (.jobj idFields))) :=
  ⟨(C5_clock_skew_boundary_exclusive.1 ⟨wStsBoundary, true⟩ "arn:x"
      ⟨.json (.jobj stsFields), 384, 0⟩ stsFields "1970-01-02T00:00:00Z" ⟨1970, 1, 2, 0, 0, 0⟩
      rfl rfl (by decide) rfl rfl rfl (by decide)).1 (by decide),
   (C5_clock_skew_boundary_exclusive.1 ⟨wStsHit, true⟩ "arn:x"
      ⟨.json (.jobj stsFields), 384, 0⟩ stsFields "1970-01-02T00:00:00Z" ⟨1970, 1, 2, 0, 0, 0⟩
      rfl rfl (by decide) rfl rfl rfl (by decide)).2 (by decide),
   (C5_clock_skew_boundary_exclusive.2 ⟨wIdBoundary, true⟩ "https://iss" "cid" .jnull
      ⟨.json (.jobj idFields), 384, 0⟩ idFields "tok" [("exp", .jnum 400)] 400
      rfl rfl (by decide) rfl rfl rfl rfl rfl).1 (by decide),
   (C5_clock_skew_boundary_exclusive.2 ⟨wIdHit, true⟩ "https://iss" "cid" .jnull
      ⟨.json (.jobj idFields), 384, 0⟩ idFields "tok" [("exp", .jnum 400)] 400
      rfl rfl (by decide) rfl rfl rfl rfl rfl).2 (by decide)⟩

/-! ### C9: a token failing verification is always a miss -/

/-- C9: a cached id-token entry whose stored token fails verification
against the supplied key material (`jwt.decode` raising any
`JOSEError`: bad signature, malformed token, audience mismatch,
unsupported algorithm) is a miss — `read_id_token` returns `None`
without raising — no matter what expiry the token claims (the claims
are never consulted when decoding fails). -/
theorem C9_invalid_token_always_miss (st : CacheProc) (issuerS cid : String) (key : JVal)
    (fr : FileRec) (fields : List (String × JVal)) (rawTok : String)
    (hsafe : st.safe = true)
    (hf : st.world.files (idTokenPath issuerS cid) = some fr)
    (hm : ModeClean fr.mode)
    (ho : st.world.openFailed (idTokenPath issuerS cid) = false)
    (hd : fr.data = .json (.jobj fields))
    (ht : lookupField fields "id_token" = some (.jstr rawTok))
    (hdec : st.world.jwtDecode rawTok key cid = .error ()) :
    read_id_token st (some issuerS) (some cid) key = (st, .ret none) := by
  rw [read_id_token_char st issuerS cid key fr fields rawTok hsafe hf hm ho hd ht, hdec]

def wIdInvalid : World := { wIdBoundary with jwtDecode := fun _ _ _ => .error () }

theorem C9_invalid_token_always_miss_witness :
    read_id_token ⟨wIdInvalid, true⟩ (some "https://iss") (some "cid") .jnull =
      (⟨wIdInvalid, true⟩, .ret none) :=
  C9_invalid_token_always_miss ⟨wIdInvalid, true⟩ "https://iss" "cid" .jnull
    ⟨.json (.jobj idFields), 384, 0⟩ idFields "tok" rfl rfl (by decide) rfl rfl rfl rfl


/-! ### C2: which reads can raise -/

/-- The call returned (possibly `None`) rather than raising. -/
def IsReturn {α : Type} (r : PyResult α) : Prop := ∃ o, r = .ret o

/-- C2 (amended): the cache reads catch only `IOError`/`OSError`; every
I/O failure, permission problem, missing file, or stale entry is
converted into a miss, and on well-formed stored content no read
raises: `read_group_role_map` never raises when the stored file parses
as JSON; `read_sts_credentials` never raises when the stored file is a
JSON object whose `Expiration` is a string in the expected timestamp
format; `read_id_token` never raises when the stored file is a JSON
object with a string `id_token` field and any successful decode yields
claims carrying a numeric `exp`. Malformed stored content, by
contrast, escapes as an uncaught exception (see the counterexample). -/
theorem C2_reads_return_on_wellformed_content :
    (∀ (st : CacheProc) (url : String),
      (∀ fr, st.world.files (rolemapPath url) = some fr → ∃ v, fr.data = .json v) →
      IsReturn (read_group_role_map st url).2) ∧
    (∀ (st : CacheProc) (arn : String),
      (∀ fr, st.world.files (stsPath arn) = some fr →
        ∃ fields expStr dt, fr.data = .json (.jobj fields) ∧
          lookupField fields "Expiration" = some (.jstr expStr) ∧
          strptimeExpiration expStr = some dt) →
      IsReturn (read_sts_credentials st arn).2) ∧
    (∀ (st : CacheProc) (iss cid : Option String) (key : JVal),
      (∀ issuerS cidS fr, iss = some issuerS → cid = some cidS →
        st.world.files (idTokenPath issuerS cidS) = some fr →
        ∃ fields rawTok, fr.data = .json (.jobj fields) ∧
          lookupField fields "id_token" = some (.jstr rawTok) ∧
          ∀ claims, st.world.jwtDecode rawTok key cidS = .ok claims →
            ∃ e : Int, lookupField claims "exp" = some (.jnum e)) →
      IsReturn (read_id_token st iss cid key).2) := by
  refine ⟨?_, ?_, ?_⟩
  · intro st url hcontent

    unfold read_group_role_map
    cases hsafe : st.safe
    · exact ⟨none, rfl⟩
    · dsimp only
      cases hwf : st.world.files (rolemapPath url) with
      | none => exact ⟨none, rfl⟩
      | some fr =>
        obtain ⟨v, hv⟩ := hcontent fr hwf
        dsimp only
        cases hro : (readable_by_others st.world (rolemapPath url) true).2
        · simp only [Bool.false_eq_true, if_false]
          have hdata : ((readable_by_others st.world (rolemapPath url) true).1.files
              (rolemapPath url)).map FileRec.data = some (.json v) := by
            rw [rbo_files_data, hwf]
            simp [hv]
          obtain ⟨fr2, hfr2, hdfr2⟩ :
              ∃ fr2, (readable_by_others st.world (rolemapPath url) true).1.files
                  (rolemapPath url) = some fr2 ∧ fr2.data = .json v := by
            cases hx : (readable_by_others st.world (rolemapPath url) true).1.files
                (rolemapPath url) with
            | none => rw [hx] at hdata; exact absurd hdata (by simp)
            | some fr2 =>
              rw [hx] at hdata
              exact ⟨fr2, rfl, by simpa using hdata⟩
          rw [hfr2]
          obtain ⟨d2, m2, t2⟩ := fr2
          simp only at hdfr2
          subst hdfr2
          dsimp only
          by_cases httl : (readable_by_others st.world (rolemapPath url) true).1.now - t2 >
              GROUP_ROLE_MAP_CACHE_TIME
          · rw [if_pos httl]
            exact ⟨none, rfl⟩
          · rw [if_neg httl]
            by_cases hof : (readable_by_others st.world (rolemapPath url) true).1.openFailed
                (rolemapPath url) = true
            · rw [if_pos hof]
              exact ⟨none, rfl⟩
            · rw [if_neg hof]
              exact ⟨some v, rfl⟩
        · simp only [eq_self_iff_true, if_true]
          exact ⟨none, rfl⟩
  · intro st arn hcontent

    unfold read_sts_credentials
    cases hsafe : st.safe
    · exact ⟨none, rfl⟩
    · dsimp only
      cases hwf : st.world.files (stsPath arn) with
      | none => exact ⟨none, rfl⟩
      | some fr =>
        obtain ⟨fields, expStr, dt, hv, he, hp⟩ := hcontent fr hwf
        dsimp only
        cases hro : (readable_by_others st.world (stsPath arn) true).2
        · simp only [Bool.false_eq_true, if_false]
          by_cases hof : (readable_by_others st.world (stsPath arn) true).1.openFailed
              (stsPath arn) = true
          · rw [if_pos hof]
            exact ⟨none, rfl⟩
          · rw [if_neg hof]
            have hdata : ((readable_by_others st.world (stsPath arn) true).1.files
                (stsPath arn)).map FileRec.data = some (.json (.jobj fields)) := by
              rw [rbo_files_data, hwf]
              simp [hv]
            obtain ⟨fr2, hfr2, hdfr2⟩ :
                ∃ fr2, (readable_by_others st.world (stsPath arn) true).1.files (stsPath arn) =
                  some fr2 ∧ fr2.data = .json (.jobj fields) := by
              cases hx : (readable_by_others st.world (stsPath arn) true).1.files (stsPath arn) with
              | none => rw [hx] at hdata; exact absurd hdata (by simp)
              | some fr2 =>
                rw [hx] at hdata
                exact ⟨fr2, rfl, by simpa using hdata⟩
            rw [hfr2]
            obtain ⟨d2, m2, t2⟩ := fr2
            simp only at hdfr2
            subst hdfr2
            dsimp only
            rw [he]
            dsimp only
            rw [hp]
            simp only [eq_self_iff_true, if_true]
            try dsimp only
            by_cases hts : timestampOf dt - (readable_by_others st.world (stsPath arn) true).1.now >
                CLOCK_SKEW_ALLOWANCE
            · rw [if_pos hts]
              exact ⟨some (.jobj fields), rfl⟩
            · rw [if_neg hts]
              exact ⟨none, rfl⟩
        · simp only [eq_self_iff_true, if_true]
          exact ⟨none, rfl⟩
  · intro st iss cid key hcontent

    unfold read_id_token
    cases hsafe : st.safe
    · exact ⟨none, rfl⟩
    · dsimp only
      cases iss with
      | none => cases cid <;> exact ⟨none, rfl⟩
      | some issuerS =>
        cases cid with
        | none => exact ⟨none, rfl⟩
        | some cidS =>
          dsimp only
          cases hwf : st.world.files (idTokenPath issuerS cidS) with
          | none => exact ⟨none, rfl⟩
          | some fr =>
            obtain ⟨fields, rawTok, hv, ht, hclaims⟩ := hcontent issuerS cidS fr rfl rfl hwf
            dsimp only
            cases hro : (readable_by_others st.world (idTokenPath issuerS cidS) true).2
            · simp only [Bool.false_eq_true, if_false]
              cases hro2 : (readable_by_others
                  (readable_by_others st.world (idTokenPath issuerS cidS) true).1
                  (idTokenPath issuerS cidS) true).2
              · simp only [Bool.not_false, eq_self_iff_true, if_true]
                by_cases hof : (readable_by_others
                    (readable_by_others st.world (idTokenPath issuerS cidS) true).1
                    (idTokenPath issuerS cidS) true).1.openFailed (idTokenPath issuerS cidS) = true
                · rw [if_pos hof]
                  exact ⟨none, rfl⟩
                · rw [if_neg hof]
                  have hdata : ((readable_by_others
                      (readable_by_others st.world (idTokenPath issuerS cidS) true).1
                      (idTokenPath issuerS cidS) true).1.files (idTokenPath issuerS cidS)).map
                        FileRec.data = some (.json (.jobj fields)) := by
                    rw [rbo_files_data, rbo_files_data, hwf]
                    simp [hv]
                  obtain ⟨fr2, hfr2, hdfr2⟩ :
                      ∃ fr2, (readable_by_others
                          (readable_by_others st.world (idTokenPath issuerS cidS) true).1
                          (idTokenPath issuerS cidS) true).1.files (idTokenPath issuerS cidS) =
                            some fr2 ∧ fr2.data = .json (.jobj fields) := by
                    cases hx : (readable_by_others
                        (readable_by_others st.world (idTokenPath issuerS cidS) true).1
                        (idTokenPath issuerS cidS) true).1.files (idTokenPath issuerS cidS) with
                    | none => rw [hx] at hdata; exact absurd hdata (by simp)
                    | some fr2 =>
                      rw [hx] at hdata
                      exact ⟨fr2, rfl, by simpa using hdata⟩
                  rw [hfr2]
                  obtain ⟨d2, m2, t2⟩ := fr2
                  simp only at hdfr2
                  subst hdfr2
                  dsimp only
                  rw [ht]
                  dsimp only
                  rw [rbo_jwtDecode, rbo_jwtDecode]
                  cases hdec : st.world.jwtDecode rawTok key cidS with
                  | error err => exact ⟨none, rfl⟩
                  | ok claims =>
                    obtain ⟨e, hexp⟩ := hclaims claims hdec
                    dsimp only
                    rw [hexp]
                    dsimp only
                    by_cases hts : e - (readable_by_others
                        (readable_by_others st.world (idTokenPath issuerS cidS) true).1
                        (idTokenPath issuerS cidS) true).1.now > CLOCK_SKEW_ALLOWANCE
                    · rw [if_pos hts]
                      exact ⟨some (.jobj fields), rfl⟩
                    · rw [if_neg hts]
                      exact ⟨none, rfl⟩
              · simp only [Bool.not_true, Bool.false_eq_true, if_false]
                exact ⟨none, rfl⟩
            · simp only [eq_self_iff_true, if_true]
              exact ⟨none, rfl⟩

/-- A safe world whose single cached file holds bytes that are not
valid JSON. -/
def wMalformed : World :=
  { wRoleBoundary with files := fun _ => some { data := FileData.invalid, mode := 384, mtime := 0 } }

theorem C2_reads_return_on_wellformed_content_counterexample :
    (read_sts_credentials ⟨wMalformed, true⟩ "arn:aws:iam::111122223333:role/Example").2 =
      .exn .valueError ∧
    (read_group_role_map ⟨wMalformed, true⟩ "https://idp.example/roles").2 = .exn .valueError :=
  ⟨rfl, rfl⟩

theorem C2_reads_return_on_wellformed_content_witness :
    IsReturn (read_group_role_map ⟨wRoleBoundary, true⟩ "u").2 ∧
    IsReturn (read_sts_credentials ⟨wStsBoundary, true⟩ "arn:x").2 ∧
    IsReturn (read_id_token ⟨wIdBoundary, true⟩ (some "https://iss") (some "cid") .jnull).2 :=
  ⟨C2_reads_return_on_wellformed_content.1 ⟨wRoleBoundary, true⟩ "u"
      (fun fr h => ⟨.jnum 1, by rw [← Option.some.inj h]⟩),
   C2_reads_return_on_wellformed_content.2.1 ⟨wStsBoundary, true⟩ "arn:x"
      (fun fr h => ⟨stsFields, "1970-01-02T00:00:00Z", ⟨1970, 1, 2, 0, 0, 0⟩,
        by rw [← Option.some.inj h], rfl, by decide⟩),
   C2_reads_return_on_wellformed_content.2.2 ⟨wIdBoundary, true⟩ (some "https://iss")
      (some "cid") .jnull
      (fun issuerS cidS fr hi hc h => ⟨idFields, "tok", by rw [← Option.some.inj h], rfl,
        fun claims hdec => ⟨400, by rw [← Except.ok.inj hdec]; rfl⟩⟩)⟩

/-! ### C6: STS credentials round-trip and key derivation -/

/-- C6: on a correctly-permissioned cache root, for every role ARN and
every credentials object whose `Expiration` is more than the
clock-skew allowance in the future, `write_sts_credentials` followed
by `read_sts_credentials` returns the very object that was written
(identical `AccessKeyId`/`SecretAccessKey`/`SessionToken`), and the
cache file used is `stscreds_` followed by the 64-hex-character
SHA-256 of the ARN. Stated for a path with no pre-existing cache file
and with the write I/O succeeding. -/
theorem C6_sts_roundtrip (st : CacheProc) (arn : String) (fields : List (String × JVal))
    (expStr : String) (dt : PyDateTime)
    (hsafe : st.safe = true)
    (hnof : st.world.files (stsPath arn) = none)
    (ho : st.world.openFailed (stsPath arn) = false)
    (hw : st.world.writeFailed (stsPath arn) = false)
    (he : lookupField fields "Expiration" = some (.jstr expStr))
    (hp : strptimeExpiration expStr = some dt)
    (hfuture : timestampOf dt - st.world.now > CLOCK_SKEW_ALLOWANCE) :
    (write_sts_credentials st arn (.jobj fields)).1.world.files (stsPath arn) =
      some { data := .json (.jobj fields), mode := 384, mtime := st.world.now } ∧
    read_sts_credentials (write_sts_credentials st arn (.jobj fields)).1 arn =
      ((write_sts_credentials st arn (.jobj fields)).1, .ret (some (.jobj fields))) ∧
    stsPath arn = cache_dir ++ "/stscreds_" ++ sha256Hex arn ∧
    (sha256Hex arn).length = 64 ∧
    (∀ c ∈ (sha256Hex arn).data, IsHexDigitChar c) := by
  have hst1 : (write_sts_credentials st arn (.jobj fields)).1 =
      { st with
        world := setFile st.world (stsPath arn) ⟨.json (.jobj fields), 384, st.world.now⟩ } := by
    unfold write_sts_credentials safe_write
    rw [if_pos hsafe]
    dsimp only
    rw [ho, hw]
    simp only [Bool.false_eq_true, if_false]
    rw [hnof]
  have hfiles : (write_sts_credentials st arn (.jobj fields)).1.world.files (stsPath arn) =
      some { data := .json (.jobj fields), mode := 384, mtime := st.world.now } := by
    rw [hst1]
    simp [setFile]
  have hsafe1 : (write_sts_credentials st arn (.jobj fields)).1.safe = true := by
    rw [hst1]
    exact hsafe
  have ho1 : (write_sts_credentials st arn (.jobj fields)).1.world.openFailed (stsPath arn) =
      false := by
    rw [hst1]
    exact ho
  have hnow : (write_sts_credentials st arn (.jobj fields)).1.world.now = st.world.now := by
    rw [hst1]
    rfl
  refine ⟨hfiles, ?_, rfl, sha256Hex_length arn, sha256Hex_chars arn⟩
  rw [read_sts_credentials_char _ arn ⟨.json (.jobj fields), 384, st.world.now⟩ fields expStr dt
    hsafe1 hfiles (show ModeClean 384 by decide) ho1 rfl he hp]
  rw [hnow, if_pos hfuture]

def wEmptyCache : World :=
  { files := fun _ => none
    dirs := fun _ => some 448
    mkdirOk := true
    mkdirMode := 448
    chmodOk := true
    openFailed := fun _ => false
    writeFailed := fun _ => false
    now := 0
    jwtDecode := fun _ _ _ => .error () }

def arnExample : String := "arn:aws:iam::111122223333:role/Example"

def stsExample : List (String × JVal) :=
  [("AccessKeyId", .jstr "AKIAEXAMPLE"), ("SecretAccessKey", .jstr "secret"),
   ("SessionToken", .jstr "token"), ("Expiration", .jstr "2099-01-01T00:00:00Z")]

theorem C6_sts_roundtrip_witness :
    (write_sts_credentials ⟨wEmptyCache, true⟩ arnExample (.jobj stsExample)).1.world.files
        (stsPath arnExample) =
      some { data := .json (.jobj stsExample), mode := 384, mtime := 0 } ∧
    read_sts_credentials (write_sts_credentials ⟨wEmptyCache, true⟩ arnExample
        (.jobj stsExample)).1 arnExample =
      ((write_sts_credentials ⟨wEmptyCache, true⟩ arnExample (.jobj stsExample)).1,
        .ret (some (.jobj stsExample))) ∧
    stsPath arnExample = cache_dir ++ "/stscreds_" ++ sha256Hex arnExample ∧
    (sha256Hex arnExample).length = 64 ∧
    (∀ c ∈ (sha256Hex arnExample).data, IsHexDigitChar c) :=
  C6_sts_roundtrip ⟨wEmptyCache, true⟩ arnExample stsExample "2099-01-01T00:00:00Z"
    ⟨2099, 1, 1, 0, 0, 0⟩ rfl rfl rfl rfl rfl (by decide) (by decide)

/-! ### Association-list toolkit for the merge proofs -/

theorem alookup_eq_none {α : Type} (l : List (String × α)) (s : String)
    (h : s ∉ l.map Prod.fst) : alookup l s = none := by
  induction l with
  | nil => rfl
  | cons x rest ih =>
    obtain ⟨k, v⟩ := x
    simp only [List.map_cons, List.mem_cons] at h
    push_neg at h
    have hks : ¬ k = s := fun he => h.1 he.symm
    simp only [alookup, if_neg hks]
    exact ih h.2

theorem alookup_isSome_of_mem {α : Type} (l : List (String × α)) (s : String)
    (h : s ∈ l.map Prod.fst) : ∃ v, alookup l s = some v := by
  induction l with
  | nil => simp at h
  | cons x rest ih =>
    obtain ⟨k, v⟩ := x
    by_cases hk : k = s
    · exact ⟨v, by simp [alookup, hk]⟩
    · simp only [List.map_cons, List.mem_cons] at h
      rcases h with h | h
    
      · exact absurd h.symm hk
      · obtain ⟨v2, hv2⟩ := ih h
        exact ⟨v2, by simp [alookup, hk, hv2]⟩

theorem mem_of_alookup_eq_some {α : Type} (l : List (String × α)) (s : String) (v : α)
    (h : alookup l s = some v) : s ∈ l.map Prod.fst := by
  by_contra hmem
  rw [alookup_eq_none l s hmem] at h
  exact Option.noConfusion h

/-- Two association lists with the same (duplicate-free) key sequence
and the same lookups are equal. -/
theorem alist_ext {α : Type} (l1 l2 : List (String × α))
    (nd : (l1.map Prod.fst).Nodup)
    (hn : l1.map Prod.fst = l2.map Prod.fst)
    (hl : ∀ s, alookup l1 s = alookup l2 s) : l1 = l2 := by
  induction l1 generalizing l2 with
  | nil =>
    cases l2 with
    | nil => rfl
    | cons y t2 => exact absurd hn (by simp)
  | cons x t1 ih =>
    obtain ⟨k, v⟩ := x
    cases l2 with
    | nil => exact absurd hn (by simp)
    | cons y t2 =>
      obtain ⟨k2, v2⟩ := y
      simp only [List.map_cons, List.cons.injEq] at hn
      obtain ⟨hk, htn⟩ := hn
      subst hk
      have hv : v = v2 := by
        have := hl k
        simp only [alookup, if_pos rfl] at this
        exact Option.some.inj this
      subst hv
      simp only [List.map_cons, List.nodup_cons] at nd
      have htl : ∀ s, alookup t1 s = alookup t2 s := by
        intro s
        by_cases hs : k = s
        · subst hs
          rw [alookup_eq_none t1 k nd.1, alookup_eq_none t2 k (htn ▸ nd.1)]
        · have := hl s
          simpa only [alookup, if_neg hs] using this
      rw [ih t2 nd.2 htn htl]

/-- Lookup in a duplicate-free association list is invariant under
permutation. -/
theorem alookup_perm {α : Type} {l1 l2 : List (String × α)} (p : List.Perm l1 l2)
    (nd : (l1.map Prod.fst).Nodup) (s : String) : alookup l1 s = alookup l2 s := by
  induction p with
  | nil => rfl
  | cons x p ih =>
    obtain ⟨k, v⟩ := x
    simp only [List.map_cons, List.nodup_cons] at nd
    by_cases hk : k = s
    · simp [alookup, hk]
    · simp only [alookup, if_neg hk]
      exact ih nd.2
  | swap x y t =>
    obtain ⟨k1, v1⟩ := x
    obtain ⟨k2, v2⟩ := y
    simp only [List.map_cons, List.nodup_cons, List.mem_cons] at nd
    have hne : k2 ≠ k1 := fun he => nd.1 (Or.inl he)
    by_cases h1 : k2 = s
    · subst h1
      simp [alookup, if_neg (fun he : k1 = k2 => hne he.symm)]
    · by_cases h2 : k1 = s
      · subst h2
        simp [alookup, if_neg h1]
      · simp [alookup, if_neg h1, if_neg h2]
  | trans p1 p2 ih1 ih2 =>
    have nd2 : _ := ((p1.map Prod.fst).nodup_iff).mp nd
    rw [ih1 nd, ih2 nd2]

/-! ### Option-dict lemmas (`config.set` inside one section) -/

/-- The cumulative effect on one section's option dict of the
`config.set` calls the merge loop performs for it. -/
def applyKvs (e : List (String × String)) (kvs : List (String × String)) :
    List (String × String) :=
  kvs.foldl (fun acc kv => setKey acc kv.1 kv.2) e

/-- The value the last `set` for a given key leaves behind. -/
def lastVal : List (String × String) → String → Option String
  | [], _ => none
  | (k1, v1) :: rest, k =>
    (lastVal rest k).orElse (fun _ => if k1 = k then some v1 else none)

theorem alookup_setKey_self (e : List (String × String)) (k v : String) :
    alookup (setKey e k v) k = some v := by
  induction e with
  | nil => simp [setKey, alookup]
  | cons x rest ih =>
    obtain ⟨k1, v1⟩ := x
    by_cases hk : k1 = k
    · simp [setKey, if_pos hk, alookup]
    · simp only [setKey, if_neg hk, alookup]
      exact ih

theorem alookup_setKey_other (e : List (String × String)) (k v k2 : String) (h : k2 ≠ k) :
    alookup (setKey e k v) k2 = alookup e k2 := by
  induction e with
  | nil =>
    simp only [setKey, alookup]
    rw [if_neg (fun he : k = k2 => h he.symm)]
  | cons x rest ih =>
    obtain ⟨k1, v1⟩ := x
    by_cases hk : k1 = k
    · subst hk
      simp only [setKey, if_pos rfl, alookup]
      rw [if_neg (fun he : k1 = k2 => h he.symm), if_neg (fun he : k1 = k2 => h he.symm)]
    · simp only [setKey, if_neg hk, alookup]
      by_cases h2 : k1 = k2
      · rw [if_pos h2, if_pos h2]
      · rw [if_neg h2, if_neg h2]
        exact ih

theorem keysOf_setKey (e : List (String × String)) (k v : String) :
    keysOf (setKey e k v) = if k ∈ keysOf e then keysOf e else keysOf e ++ [k] := by
  induction e with
  | nil => simp [setKey, keysOf]
  | cons x rest ih =>
    obtain ⟨k1, v1⟩ := x
    by_cases hk : k1 = k
    · subst hk
      simp [setKey, keysOf]
    · simp only [setKey, if_neg hk, keysOf, List.map_cons] at ih ⊢
      have hmem : (k ∈ k1 :: List.map Prod.fst rest) ↔ (k ∈ List.map Prod.fst rest) := by
        constructor
        · intro hc
          rcases List.mem_cons.mp hc with he | hm2
          · exact absurd he.symm hk
          · exact hm2
        · intro hm2
          exact List.mem_cons.mpr (Or.inr hm2)
      by_cases hm : k ∈ List.map Prod.fst rest
      · rw [if_pos (hmem.mpr hm)]
        rw [if_pos hm] at ih
        rw [ih]
      · rw [if_neg (fun hc => hm (hmem.mp hc))]
        rw [if_neg hm] at ih
        rw [ih]
        simp [List.cons_append]

theorem mem_keysOf_setKey (e : List (String × String)) (k v k2 : String)
    (h : k2 ∈ keysOf e) : k2 ∈ keysOf (setKey e k v) := by
  rw [keysOf_setKey]
  split <;> simp [h]

theorem self_mem_keysOf_setKey (e : List (String × String)) (k v : String) :
    k ∈ keysOf (setKey e k v) := by
  rw [keysOf_setKey]
  split
  · assumption
  · simp

theorem nodup_keysOf_setKey (e : List (String × String)) (k v : String)
    (nd : (keysOf e).Nodup) : (keysOf (setKey e k v)).Nodup := by
  rw [keysOf_setKey]
  split
  · exact nd
  · next h =>
    rw [List.nodup_append]
    refine ⟨nd, List.nodup_singleton k, fun a ha hb => ?_⟩
    rw [List.mem_singleton] at hb
    exact h (hb ▸ ha)

theorem orElse_assoc {α : Type} (a b c : Option α) :
    ((a.orElse fun _ => b).orElse fun _ => c) = a.orElse fun _ => b.orElse fun _ => c := by
  cases a <;> rfl

theorem orElse_self_absorb {α : Type} (a b : Option α) :
    (a.orElse fun _ => a.orElse fun _ => b) = a.orElse fun _ => b := by
  cases a <;> rfl

theorem alookup_applyKvs (kvs e : List (String × String)) (k : String) :
    alookup (applyKvs e kvs) k = (lastVal kvs k).orElse fun _ => alookup e k := by
  induction kvs generalizing e with
  | nil =>
    show alookup e k = (lastVal [] k).orElse fun _ => alookup e k
    cases alookup e k <;> rfl
  | cons kv rest ih =>
    obtain ⟨k1, v1⟩ := kv
    show alookup (applyKvs (setKey e k1 v1) rest) k = _
    rw [ih (setKey e k1 v1)]
    show _ = ((lastVal rest k).orElse fun _ => if k1 = k then some v1 else none).orElse
      fun _ => alookup e k
    rw [orElse_assoc]
    cases hlv : lastVal rest k with
    | some v2 => rfl
    | none =>
      show alookup (setKey e k1 v1) k =
        ((if k1 = k then some v1 else none).orElse fun _ => alookup e k)
      by_cases hk : k1 = k
      · subst hk
        rw [alookup_setKey_self, if_pos rfl]
        rfl
      · rw [alookup_setKey_other e k1 v1 k (fun he => hk he.symm), if_neg hk]
        rfl

theorem lastVal_eq_none (kvs : List (String × String)) (k : String)
    (h : k ∉ keysOf kvs) : lastVal kvs k = none := by
  induction kvs with
  | nil => rfl
  | cons kv rest ih =>
    obtain ⟨k1, v1⟩ := kv
    simp only [keysOf, List.map_cons, List.mem_cons] at h
    push_neg at h
    show ((lastVal rest k).orElse fun _ => if k1 = k then some v1 else none) = none
    rw [ih (by simpa [keysOf] using h.2), if_neg (fun he : k1 = k => h.1 he.symm)]
    rfl

theorem keysOf_applyKvs_stable (kvs e : List (String × String))
    (h : ∀ kv ∈ kvs, kv.1 ∈ keysOf e) : keysOf (applyKvs e kvs) = keysOf e := by
  induction kvs generalizing e with
  | nil => rfl
  | cons kv rest ih =>
    obtain ⟨k1, v1⟩ := kv
    show keysOf (applyKvs (setKey e k1 v1) rest) = keysOf e
    have hk1 : k1 ∈ keysOf e := h (k1, v1) (List.mem_cons_self _ _)
    have hkeys : keysOf (setKey e k1 v1) = keysOf e := by
      rw [keysOf_setKey, if_pos hk1]
    rw [ih (setKey e k1 v1) (fun kv hkv => by rw [hkeys]; exact h kv (List.mem_cons_of_mem _ hkv))]
    exact hkeys

theorem mem_keysOf_applyKvs_mono (kvs e : List (String × String)) (k : String)
    (h : k ∈ keysOf e) : k ∈ keysOf (applyKvs e kvs) := by
  induction kvs generalizing e with
  | nil => exact h
  | cons kv rest ih =>
    obtain ⟨k1, v1⟩ := kv
    exact ih (setKey e k1 v1) (mem_keysOf_setKey e k1 v1 k h)

theorem mem_keysOf_applyKvs (kvs e : List (String × String)) :
    ∀ kv ∈ kvs, kv.1 ∈ keysOf (applyKvs e kvs) := by
  induction kvs generalizing e with
  | nil => intro kv hkv; simp at hkv
  | cons kv0 rest ih =>
    intro kv hkv
    obtain ⟨k1, v1⟩ := kv0
    rcases List.mem_cons.mp hkv with he | hm
    · subst he
      exact mem_keysOf_applyKvs_mono rest (setKey e k1 v1) k1 (self_mem_keysOf_setKey e k1 v1)
    · exact ih (setKey e k1 v1) kv hm

theorem nodup_keysOf_applyKvs (kvs e : List (String × String))
    (nd : (keysOf e).Nodup) : (keysOf (applyKvs e kvs)).Nodup := by
  induction kvs generalizing e with
  | nil => exact nd
  | cons kv rest ih =>
    obtain ⟨k1, v1⟩ := kv
    exact ih (setKey e k1 v1) (nodup_keysOf_setKey e k1 v1 nd)

/-- Re-running the same sequence of `config.set` calls on a section
that already absorbed them changes nothing. -/
theorem applyKvs_idem (e kvs : List (String × String)) (nd : (keysOf e).Nodup) :
    applyKvs (applyKvs e kvs) kvs = applyKvs e kvs := by
  apply alist_ext
  · exact nodup_keysOf_applyKvs kvs (applyKvs e kvs) (nodup_keysOf_applyKvs kvs e nd)
  · exact keysOf_applyKvs_stable kvs (applyKvs e kvs) (fun kv hkv => mem_keysOf_applyKvs kvs e kv hkv)
  · intro s
    rw [alookup_applyKvs, alookup_applyKvs, orElse_self_absorb]

/-! ### Section-level lemmas for the merge -/

theorem alookup_append {α : Type} (c d : List (String × α)) (s : String) :
    alookup (c ++ d) s = (alookup c s).orElse fun _ => alookup d s := by
  induction c with
  | nil =>
    show alookup d s = (Option.none).orElse fun _ => alookup d s
    cases alookup d s <;> rfl
  | cons x rest ih =>
    obtain ⟨k, v⟩ := x
    show (if k = s then some v else alookup (rest ++ d) s) =
      ((if k = s then some v else alookup rest s).orElse fun _ => alookup d s)
    by_cases hk : k = s
    · rw [if_pos hk, if_pos hk]
      rfl
    · rw [if_neg hk, if_neg hk, ih]

theorem alookup_setInSection_self (c : Sections) (sec k v : String) :
    alookup (setInSection c sec k v) sec = (alookup c sec).map fun e => setKey e k v := by
  induction c with
  | nil => rfl
  | cons x rest ih =>
    obtain ⟨s1, e⟩ := x
    by_cases hs : s1 = sec
    · simp only [setInSection, if_pos hs, alookup]
      rfl
    · simp only [setInSection, if_neg hs, alookup]
      exact ih

theorem alookup_setInSection_other (c : Sections) (sec k v s2 : String) (h : s2 ≠ sec) :
    alookup (setInSection c sec k v) s2 = alookup c s2 := by
  induction c with
  | nil => rfl
  | cons x rest ih =>
    obtain ⟨s1, e⟩ := x
    by_cases hs : s1 = sec
    · simp only [setInSection, if_pos hs, alookup]
      rw [if_neg (hs ▸ fun he : s1 = s2 => h (he.symm.trans hs)), if_neg]
      intro he
      exact h (he.symm.trans hs)
    · simp only [setInSection, if_neg hs, alookup]
      by_cases h2 : s1 = s2
      · rw [if_pos h2, if_pos h2]
      · rw [if_neg h2, if_neg h2]
        exact ih

theorem secNames_setInSection (c : Sections) (sec k v : String) :
    secNames (setInSection c sec k v) = secNames c := by
  induction c with
  | nil => rfl
  | cons x rest ih =>
    obtain ⟨s1, e⟩ := x
    by_cases hs : s1 = sec
    · simp [setInSection, if_pos hs, secNames, hs]
    · simp only [setInSection, if_neg hs, secNames, List.map_cons]
      rw [show secNames (setInSection rest sec k v) = List.map Prod.fst
        (setInSection rest sec k v) from rfl] at ih
      rw [ih]
      rfl

theorem alookup_ensureSection_self (c : Sections) (sec : String) :
    alookup (ensureSection c sec) sec = some ((alookup c sec).getD []) := by
  unfold ensureSection
  by_cases hm : sec ∈ secNames c
  · rw [if_pos hm]
    obtain ⟨e, he⟩ := alookup_isSome_of_mem c sec hm
    rw [he]
    rfl
  · rw [if_neg hm, alookup_append, alookup_eq_none c sec hm]
    simp [alookup]

theorem alookup_ensureSection_other (c : Sections) (sec s2 : String) (h : s2 ≠ sec) :
    alookup (ensureSection c sec) s2 = alookup c s2 := by
  unfold ensureSection
  by_cases hm : sec ∈ secNames c
  · rw [if_pos hm]
  · rw [if_neg hm, alookup_append]
    show ((alookup c s2).orElse fun _ => if sec = s2 then some [] else none) = _
    rw [if_neg (fun he : sec = s2 => h he.symm)]
    cases alookup c s2 <;> rfl

theorem secNames_ensureSection (c : Sections) (sec : String) :
    secNames (ensureSection c sec) =
      if sec ∈ secNames c then secNames c else secNames c ++ [sec] := by
  unfold ensureSection
  by_cases hm : sec ∈ secNames c
  · rw [if_pos hm, if_pos hm]
  · rw [if_neg hm, if_neg hm]
    simp [secNames]

def foldKvs (c : Sections) (sec : String) (kvs : List (String × String)) : Sections :=
  kvs.foldl (fun acc kv => setInSection acc sec kv.1 kv.2) c

theorem applySection_eq_foldKvs (c : Sections) (sec : String) (kvs : List (String × String)) :
    applySection c (sec, kvs) = foldKvs (ensureSection c sec) sec (lowerPairs kvs) := by
  unfold applySection foldKvs lowerPairs
  rw [List.foldl_map]

theorem alookup_foldKvs_self (kvs : List (String × String)) (c : Sections) (sec : String) :
    alookup (foldKvs c sec kvs) sec = (alookup c sec).map fun e => applyKvs e kvs := by
  induction kvs generalizing c with
  | nil =>
    show alookup c sec = (alookup c sec).map fun e => e
    cases alookup c sec <;> rfl
  | cons kv rest ih =>
    obtain ⟨k1, v1⟩ := kv
    show alookup (foldKvs (setInSection c sec k1 v1) sec rest) sec = _
    rw [ih (setInSection c sec k1 v1), alookup_setInSection_self, Option.map_map]
    rfl

theorem alookup_foldKvs_other (kvs : List (String × String)) (c : Sections) (sec s2 : String)
    (h : s2 ≠ sec) : alookup (foldKvs c sec kvs) s2 = alookup c s2 := by
  induction kvs generalizing c with
  | nil => rfl
  | cons kv rest ih =>
    obtain ⟨k1, v1⟩ := kv
    show alookup (foldKvs (setInSection c sec k1 v1) sec rest) s2 = _
    rw [ih (setInSection c sec k1 v1), alookup_setInSection_other c sec k1 v1 s2 h]

theorem secNames_foldKvs (kvs : List (String × String)) (c : Sections) (sec : String) :
    secNames (foldKvs c sec kvs) = secNames c := by
  induction kvs generalizing c with
  | nil => rfl
  | cons kv rest ih =>
    obtain ⟨k1, v1⟩ := kv
    show secNames (foldKvs (setInSection c sec k1 v1) sec rest) = _
    rw [ih (setInSection c sec k1 v1), secNames_setInSection]

theorem alookup_applySection_self (c : Sections) (sec : String) (kvs : List (String × String)) :
    alookup (applySection c (sec, kvs)) sec =
      some (applyKvs ((alookup c sec).getD []) (lowerPairs kvs)) := by
  rw [applySection_eq_foldKvs, alookup_foldKvs_self, alookup_ensureSection_self]
  rfl

theorem alookup_applySection_other (c : Sections) (sec : String) (kvs : List (String × String))
    (s2 : String) (h : s2 ≠ sec) :
    alookup (applySection c (sec, kvs)) s2 = alookup c s2 := by
  rw [applySection_eq_foldKvs, alookup_foldKvs_other _ _ _ _ h,
    alookup_ensureSection_other c sec s2 h]

theorem secNames_applySection (c : Sections) (sec : String) (kvs : List (String × String)) :
    secNames (applySection c (sec, kvs)) = secNames (ensureSection c sec) := by
  rw [applySection_eq_foldKvs, secNames_foldKvs]

theorem mergeSections_cons (c : Sections) (x : String × List (String × String)) (n : Sections) :
    mergeSections c (x :: n) = mergeSections (applySection c x) n := rfl

theorem alookup_mergeSections_frame (n c : Sections) (A : String)
    (h : A ∉ n.map Prod.fst) : alookup (mergeSections c n) A = alookup c A := by
  induction n generalizing c with
  | nil => rfl
  | cons x rest ih =>
    obtain ⟨sec, kvs⟩ := x
    simp only [List.map_cons, List.mem_cons] at h
    push_neg at h
    rw [mergeSections_cons, ih (applySection c (sec, kvs)) h.2,
      alookup_applySection_other c sec kvs A h.1]

/-- Full characterization of the merge's effect on one section, for a
duplicate-free new-section set (the `credentials` argument is a Python
dict, so its section names are unique). -/
theorem alookup_mergeSections (n : Sections) (c : Sections) (A : String)
    (hnd : (n.map Prod.fst).Nodup) :
    alookup (mergeSections c n) A =
      match alookup n A with
      | some kvsA => some (applyKvs ((alookup c A).getD []) (lowerPairs kvsA))
      | none => alookup c A := by
  induction n generalizing c with
  | nil => rfl
  | cons x rest ih =>
    obtain ⟨sec, kvs⟩ := x
    simp only [List.map_cons, List.nodup_cons] at hnd
    rw [mergeSections_cons]
    by_cases hA : sec = A
    · subst hA
      show alookup (mergeSections (applySection c (sec, kvs)) rest) sec =
        match (if sec = sec then some kvs else alookup rest sec) with
        | some kvsA => some (applyKvs ((alookup c sec).getD []) (lowerPairs kvsA))
        | none => alookup c sec
      rw [if_pos rfl, alookup_mergeSections_frame rest _ sec hnd.1,
        alookup_applySection_self]
    · show alookup (mergeSections (applySection c (sec, kvs)) rest) A =
        match (if sec = A then some kvs else alookup rest A) with
        | some kvsA => some (applyKvs ((alookup c A).getD []) (lowerPairs kvsA))
        | none => alookup c A
      rw [if_neg hA, ih (applySection c (sec, kvs)) hnd.2,
        alookup_applySection_other c sec kvs A (fun he => hA he.symm)]

theorem mem_secNames_ensureSection (c : Sections) (sec : String) :
    sec ∈ secNames (ensureSection c sec) := by
  rw [secNames_ensureSection]
  split
  · assumption
  · simp

theorem mem_secNames_ensureSection_mono (c : Sections) (sec s : String)
    (h : s ∈ secNames c) : s ∈ secNames (ensureSection c sec) := by
  rw [secNames_ensureSection]
  split
  · exact h
  · simp [h]

theorem mem_secNames_applySection_mono (c : Sections) (x : String × List (String × String))
    (s : String) (h : s ∈ secNames c) : s ∈ secNames (applySection c x) := by
  obtain ⟨sec, kvs⟩ := x
  rw [secNames_applySection]
  exact mem_secNames_ensureSection_mono c sec s h

theorem mem_secNames_mergeSections_mono (n c : Sections) (s : String)
    (h : s ∈ secNames c) : s ∈ secNames (mergeSections c n) := by
  induction n generalizing c with
  | nil => exact h
  | cons x rest ih =>
    rw [mergeSections_cons]
    exact ih (applySection c x) (mem_secNames_applySection_mono c x s h)

theorem mem_secNames_mergeSections (n c : Sections) (s : String)
    (h : s ∈ n.map Prod.fst) : s ∈ secNames (mergeSections c n) := by
  induction n generalizing c with
  | nil => simp at h
  | cons x rest ih =>
    obtain ⟨sec, kvs⟩ := x
    rw [mergeSections_cons]
    rcases List.mem_cons.mp h with he | hm
    · subst he
      refine mem_secNames_mergeSections_mono rest _ s ?_
      rw [secNames_applySection]
      exact mem_secNames_ensureSection c s
    · exact ih (applySection c (sec, kvs)) hm

theorem secNames_mergeSections_stable (n c : Sections)
    (h : ∀ s ∈ n.map Prod.fst, s ∈ secNames c) :
    secNames (mergeSections c n) = secNames c := by
  induction n generalizing c with
  | nil => rfl
  | cons x rest ih =>
    obtain ⟨sec, kvs⟩ := x
    rw [mergeSections_cons]
    have hsec : sec ∈ secNames c := h sec (by simp)
    have h1 : secNames (applySection c (sec, kvs)) = secNames c := by
      rw [secNames_applySection, secNames_ensureSection, if_pos hsec]
    rw [ih (applySection c (sec, kvs)) (fun s hs => by
      rw [h1]
      exact h s (List.mem_cons_of_mem _ hs)), h1]

theorem nodup_secNames_applySection (c : Sections) (x : String × List (String × String))
    (nd : (secNames c).Nodup) : (secNames (applySection c x)).Nodup := by
  obtain ⟨sec, kvs⟩ := x
  rw [secNames_applySection, secNames_ensureSection]
  split
  · exact nd
  · next h =>
    rw [List.nodup_append]
    refine ⟨nd, List.nodup_singleton sec, fun a ha hb => ?_⟩
    rw [List.mem_singleton] at hb
    exact h (hb ▸ ha)

theorem nodup_secNames_mergeSections (n c : Sections)
    (nd : (secNames c).Nodup) : (secNames (mergeSections c n)).Nodup := by
  induction n generalizing c with
  | nil => exact nd
  | cons x rest ih =>
    rw [mergeSections_cons]
    exact ih (applySection c x) (nodup_secNames_applySection c x nd)

/-- Per-section option-name uniqueness, as enforced when parsing. -/
def NodupKeys (c : Sections) : Prop := ∀ e ∈ c, (keysOf e.2).Nodup

theorem nodupKeys_setInSection (c : Sections) (sec k v : String)
    (nd : NodupKeys c) : NodupKeys (setInSection c sec k v) := by
  induction c with
  | nil => exact nd
  | cons x rest ih =>
    obtain ⟨s1, e⟩ := x
    by_cases hs : s1 = sec
    · simp only [setInSection, if_pos hs]
      intro y hy
      rcases List.mem_cons.mp hy with he | hm
      · subst he
        exact nodup_keysOf_setKey e k v (nd (s1, e) (List.mem_cons_self _ _))
      · exact nd y (List.mem_cons_of_mem _ hm)
    · simp only [setInSection, if_neg hs]
      intro y hy
      rcases List.mem_cons.mp hy with he | hm
      · subst he
        exact nd (s1, e) (List.mem_cons_self _ _)
      · exact ih (fun z hz => nd z (List.mem_cons_of_mem _ hz)) y hm

theorem nodupKeys_ensureSection (c : Sections) (sec : String)
    (nd : NodupKeys c) : NodupKeys (ensureSection c sec) := by
  unfold ensureSection
  split
  · exact nd
  · intro y hy
    rcases List.mem_append.mp hy with hm | hm
    · exact nd y hm
    · rw [List.mem_singleton] at hm
      subst hm
      exact List.nodup_nil

theorem nodupKeys_foldKvs (kvs : List (String × String)) (c : Sections) (sec : String)
    (nd : NodupKeys c) : NodupKeys (foldKvs c sec kvs) := by
  induction kvs generalizing c with
  | nil => exact nd
  | cons kv rest ih =>
    obtain ⟨k1, v1⟩ := kv
    exact ih (setInSection c sec k1 v1) (nodupKeys_setInSection c sec k1 v1 nd)

theorem nodupKeys_applySection (c : Sections) (x : String × List (String × String))
    (nd : NodupKeys c) : NodupKeys (applySection c x) := by
  obtain ⟨sec, kvs⟩ := x
  rw [applySection_eq_foldKvs]
  exact nodupKeys_foldKvs _ _ _ (nodupKeys_ensureSection c sec nd)

theorem nodupKeys_mergeSections (n c : Sections) (nd : NodupKeys c) :
    NodupKeys (mergeSections c n) := by
  induction n generalizing c with
  | nil => exact nd
  | cons x rest ih =>
    rw [mergeSections_cons]
    exact ih (applySection c x) (nodupKeys_applySection c x nd)

instance : IsTrans (String × List (String × String)) (fun a b => a.1 ≤ b.1) :=
  ⟨fun _ _ _ h1 h2 => le_trans h1 h2⟩

instance : IsTotal (String × List (String × String)) (fun a b => a.1 ≤ b.1) :=
  ⟨fun a b => le_total a.1 b.1⟩

theorem sortSections_perm (c : Sections) : List.Perm (sortSections c) c :=
  List.perm_insertionSort _ c

theorem sortSections_sorted (c : Sections) :
    List.Sorted (fun a b : String × List (String × String) => a.1 ≤ b.1) (sortSections c) :=
  List.sorted_insertionSort _ c

theorem sortSections_of_sorted (c : Sections)
    (h : List.Sorted (fun a b : String × List (String × String) => a.1 ≤ b.1) c) :
    sortSections c = c :=
  List.Sorted.insertionSort_eq h

theorem alookup_mem {α : Type} (l : List (String × α)) (s : String) (v : α)
    (h : alookup l s = some v) : (s, v) ∈ l := by
  induction l with
  | nil => exact Option.noConfusion h
  | cons x rest ih =>
    obtain ⟨k1, v1⟩ := x
    by_cases hk : k1 = s
    · subst hk
      rw [show alookup ((k1, v1) :: rest) k1 = some v1 from by simp [alookup]] at h
      rw [← Option.some.inj h]
      exact List.mem_cons_self _ _
    · rw [show alookup ((k1, v1) :: rest) s = alookup rest s from by simp [alookup, hk]] at h
      exact List.mem_cons_of_mem _ (ih h)

/-- Option names already normalized by `optionxform` (all lower-case),
as is the case for any section structure the merge itself wrote. -/
def KeysLower (c : Sections) : Prop := ∀ e ∈ c, ∀ kv ∈ e.2, pyLower kv.1 = kv.1

theorem keysLower_lowerKeys (S : Sections) : KeysLower (lowerKeys S) := by
  intro e he kv hkv
  unfold lowerKeys at he
  obtain ⟨sec, hsec, hse⟩ := List.mem_map.mp he
  subst hse
  obtain ⟨kv0, hkv0, hkve⟩ := List.mem_map.mp hkv
  subst hkve
  exact pyLower_idem kv0.1

theorem lowerPairs_eq_self (e : List (String × String)) (h : ∀ kv ∈ e, pyLower kv.1 = kv.1) :
    lowerPairs e = e := by
  unfold lowerPairs
  rw [List.map_congr_left (fun kv hkv => by rw [h kv hkv])]
  exact List.map_id e

theorem lowerKeys_eq_self (c : Sections) (h : KeysLower c) : lowerKeys c = c := by
  unfold lowerKeys
  rw [List.map_congr_left (fun e he => by rw [lowerPairs_eq_self e.2 (h e he)])]
  exact List.map_id c

theorem keysLower_setKey (e : List (String × String)) (k v : String)
    (h : ∀ kv ∈ e, pyLower kv.1 = kv.1) (hk : pyLower k = k) :
    ∀ kv ∈ setKey e k v, pyLower kv.1 = kv.1 := by
  induction e with
  | nil =>
    intro kv hkv
    rw [show setKey [] k v = [(k, v)] from rfl, List.mem_singleton] at hkv
    subst hkv
    exact hk
  | cons x rest ih =>
    obtain ⟨k1, v1⟩ := x
    intro kv hkv
    by_cases h1 : k1 = k
    · rw [show setKey ((k1, v1) :: rest) k v = (k, v) :: rest from by simp [setKey, h1]] at hkv
      rcases List.mem_cons.mp hkv with he | hm
      · subst he
        exact hk
      · exact h kv (List.mem_cons_of_mem _ hm)
    · rw [show setKey ((k1, v1) :: rest) k v = (k1, v1) :: setKey rest k v from by
        simp [setKey, h1]] at hkv
      rcases List.mem_cons.mp hkv with he | hm
      · subst he
        exact h (k1, v1) (List.mem_cons_self _ _)
      · exact ih (fun z hz => h z (List.mem_cons_of_mem _ hz)) kv hm

theorem keysLower_setInSection (c : Sections) (sec k v : String)
    (h : KeysLower c) (hk : pyLower k = k) : KeysLower (setInSection c sec k v) := by
  induction c with
  | nil => exact h
  | cons x rest ih =>
    obtain ⟨s1, e⟩ := x
    by_cases hs : s1 = sec
    · simp only [setInSection, if_pos hs]
      intro y hy
      rcases List.mem_cons.mp hy with he | hm
      · subst he
        exact keysLower_setKey e k v (h (s1, e) (List.mem_cons_self _ _)) hk
      · exact h y (List.mem_cons_of_mem _ hm)
    · simp only [setInSection, if_neg hs]
      intro y hy
      rcases List.mem_cons.mp hy with he | hm
      · subst he
        exact h (s1, e) (List.mem_cons_self _ _)
      · exact ih (fun z hz => h z (List.mem_cons_of_mem _ hz)) y hm

theorem keysLower_ensureSection (c : Sections) (sec : String)
    (h : KeysLower c) : KeysLower (ensureSection c sec) := by
  unfold ensureSection
  split
  · exact h
  · intro y hy
    rcases List.mem_append.mp hy with hm | hm
    · exact h y hm
    · rw [List.mem_singleton] at hm
      subst hm
      intro kv hkv
      simp at hkv

theorem keysLower_foldKvs (kvs : List (String × String)) :
    ∀ (c : Sections) (sec : String), (∀ kv ∈ kvs, pyLower kv.1 = kv.1) → KeysLower c →
      KeysLower (foldKvs c sec kvs) := by
  induction kvs with
  | nil => intro c sec _ h; exact h
  | cons kv rest ih =>
    intro c sec hkeys h
    obtain ⟨k1, v1⟩ := kv
    exact ih (setInSection c sec k1 v1) sec (fun z hz => hkeys z (List.mem_cons_of_mem _ hz))
      (keysLower_setInSection c sec k1 v1 h (hkeys (k1, v1) (List.mem_cons_self _ _)))

theorem keysLower_applySection (c : Sections) (x : String × List (String × String))
    (h : KeysLower c) : KeysLower (applySection c x) := by
  obtain ⟨sec, kvs⟩ := x
  rw [applySection_eq_foldKvs]
  refine keysLower_foldKvs _ _ _ ?_ (keysLower_ensureSection c sec h)
  intro kv hkv
  obtain ⟨kv0, hkv0, hkve⟩ := List.mem_map.mp hkv
  subst hkve
  exact pyLower_idem kv0.1

theorem keysLower_mergeSections (n c : Sections) (h : KeysLower c) :
    KeysLower (mergeSections c n) := by
  induction n generalizing c with
  | nil => exact h
  | cons x rest ih =>
    rw [mergeSections_cons]
    exact ih (applySection c x) (keysLower_applySection c x h)

theorem keysLower_sortSections (c : Sections) (h : KeysLower c) :
    KeysLower (sortSections c) :=
  fun e he => h e ((sortSections_perm c).mem_iff.mp he)

theorem nodupKeys_sortSections (c : Sections) (h : NodupKeys c) : NodupKeys (sortSections c) :=
  fun e he => h e ((sortSections_perm c).mem_iff.mp he)

/-- Merging the same (duplicate-free) section set into the result of
an earlier merge-and-sort changes nothing. -/
theorem mergeSections_self_eq (c N : Sections)
    (hndN : (N.map Prod.fst).Nodup)
    (hndc : (secNames c).Nodup)
    (hkc : NodupKeys c) :
    mergeSections (sortSections (mergeSections c N)) N = sortSections (mergeSections c N) := by
  have hndM : (secNames (mergeSections c N)).Nodup := nodup_secNames_mergeSections N c hndc
  have hpermNames : List.Perm (secNames (sortSections (mergeSections c N)))
      (secNames (mergeSections c N)) := (sortSections_perm (mergeSections c N)).map Prod.fst
  have hndF : (secNames (sortSections (mergeSections c N))).Nodup :=
    (hpermNames.nodup_iff).mpr hndM
  have hlookupF : ∀ s, alookup (sortSections (mergeSections c N)) s =
      alookup (mergeSections c N) s :=
    fun s => alookup_perm (sortSections_perm (mergeSections c N)) hndF s
  apply alist_ext
  · exact nodup_secNames_mergeSections N _ hndF
  · refine secNames_mergeSections_stable N _ (fun s hs => ?_)
    exact (hpermNames.mem_iff).mpr (mem_secNames_mergeSections N c s hs)
  · intro A
    rw [alookup_mergeSections N _ A hndN]
    cases hNA : alookup N A with
    | none => rfl
    | some kvsA =>
      have hM : alookup (mergeSections c N) A =
          some (applyKvs ((alookup c A).getD []) (lowerPairs kvsA)) := by
        rw [alookup_mergeSections N c A hndN, hNA]
      have hF : alookup (sortSections (mergeSections c N)) A =
          some (applyKvs ((alookup c A).getD []) (lowerPairs kvsA)) := by
        rw [hlookupF A, hM]
      have nd0 : (keysOf ((alookup c A).getD [])).Nodup := by
        cases hcA : alookup c A with
        | none => exact List.nodup_nil
        | some e0 => exact hkc (A, e0) (alookup_mem c A e0 hcA)
      rw [hF]
      show some (applyKvs (applyKvs ((alookup c A).getD []) (lowerPairs kvsA))
        (lowerPairs kvsA)) = _
      rw [applyKvs_idem _ _ nd0]

/-! ### Characterizing the shared-credentials read and write -/

/-- The mode `_safe_write`'s `open(..., 0o600)` leaves on the file: a
pre-existing file keeps its mode, a new file gets `0o600`. -/
def prevMode (w : World) (path : String) : Nat :=
  match w.files path with
  | some r => r.mode
  | none => 384

theorem read_aws_shared_credentials_none (st : CacheProc)
    (hsafe : st.safe = true) (hnof : st.world.files credentialsPath = none) :
    read_aws_shared_credentials st = (st, .ret (some [])) := by
  obtain ⟨w, sf⟩ := st
  simp only at hsafe hnof
  subst hsafe
  unfold read_aws_shared_credentials
  dsimp only
  rw [hnof]
  rfl

theorem read_aws_shared_credentials_ini (st : CacheProc) (fr : FileRec) (S : Sections)
    (hsafe : st.safe = true)
    (hf : st.world.files credentialsPath = some fr)
    (hm : ModeClean fr.mode)
    (ho : st.world.openFailed credentialsPath = false)
    (hd : fr.data = .ini S)
    (hwf : WfIni (lowerKeys S)) :
    read_aws_shared_credentials st = (st, .ret (some (lowerKeys S))) := by
  obtain ⟨w, sf⟩ := st
  obtain ⟨data, mode, mtime⟩ := fr
  simp only at hsafe hf hm ho hd
  subst hsafe hd
  unfold read_aws_shared_credentials
  dsimp only
  rw [readable_by_others_clean w credentialsPath true _ hf hm]
  dsimp only
  rw [hf]
  dsimp only
  rw [if_pos hwf]
  simp only [ho, if_true, Bool.false_eq_true, if_false]

theorem write_aws_shared_credentials_ok (st : CacheProc) (N config : Sections)
    (hsafe : st.safe = true)
    (hread : read_aws_shared_credentials st = (st, .ret (some config)))
    (ho : st.world.openFailed credentialsPath = false)
    (hw : st.world.writeFailed credentialsPath = false) :
    write_aws_shared_credentials st N =
      ({ st with
         world := setFile st.world credentialsPath
           ⟨.ini (sortSections (mergeSections config N)), prevMode st.world credentialsPath,
            st.world.now⟩ },
       .ret (some credentialsPath)) := by
  unfold write_aws_shared_credentials
  rw [if_pos hsafe, hread]
  dsimp only
  unfold safe_write
  rw [ho, hw]
  simp only [Bool.false_eq_true, if_false]
  rfl

theorem write_aws_shared_credentials_openfail (st : CacheProc) (N config : Sections)
    (hsafe : st.safe = true)
    (hread : read_aws_shared_credentials st = (st, .ret (some config)))
    (ho : st.world.openFailed credentialsPath = true) :
    write_aws_shared_credentials st N = (st, .ret none) := by
  unfold write_aws_shared_credentials
  rw [if_pos hsafe, hread]
  dsimp only
  unfold safe_write
  rw [ho]
  simp only [if_true, Bool.false_eq_true, if_false]

theorem write_aws_shared_credentials_writefail (st : CacheProc) (N config : Sections)
    (hsafe : st.safe = true)
    (hread : read_aws_shared_credentials st = (st, .ret (some config)))
    (ho : st.world.openFailed credentialsPath = false)
    (hw : st.world.writeFailed credentialsPath = true) :
    write_aws_shared_credentials st N =
      ({ st with
         world := setFile st.world credentialsPath (truncatedRec st.world credentialsPath) },
       .ret none) := by
  unfold write_aws_shared_credentials
  rw [if_pos hsafe, hread]
  dsimp only
  unfold safe_write
  rw [ho, hw]
  simp only [Bool.false_eq_true, if_false, if_true]

theorem read_aws_shared_credentials_openfail (st : CacheProc) (fr : FileRec)
    (hsafe : st.safe = true)
    (hf : st.world.files credentialsPath = some fr)
    (hm : ModeClean fr.mode)
    (ho : st.world.openFailed credentialsPath = true) :
    read_aws_shared_credentials st = (st, .ret (some [])) := by
  obtain ⟨w, sf⟩ := st
  obtain ⟨data, mode, mtime⟩ := fr
  simp only at hsafe hf hm ho
  subst hsafe
  unfold read_aws_shared_credentials
  dsimp only
  rw [readable_by_others_clean w credentialsPath true _ hf hm]
  dsimp only
  simp only [ho, if_true, Bool.false_eq_true, if_false]
  rw [hf]

/-! ### C4: what a failed shared-credentials write leaves behind -/

/-- C4 (amended): `write_aws_shared_credentials` is *not* all-or-nothing.
If the `open` of `_safe_write` fails, the previous file is untouched
and `None` is returned; but `open` uses `O_CREAT | O_TRUNC` on the
file in place, so when the open succeeds and the subsequent write
fails, the previous content is destroyed (the file is left truncated)
even though `None` is returned. Only on full success is the merged,
re-sorted file persisted and the path returned. -/
theorem C4_write_shared_failure_modes (st : CacheProc) (N : Sections) (fr : FileRec)
    (S : Sections)
    (hsafe : st.safe = true)
    (hf : st.world.files credentialsPath = some fr)
    (hm : ModeClean fr.mode)
    (hd : fr.data = .ini S)
    (hwf : WfIni (lowerKeys S)) :
    (st.world.openFailed credentialsPath = true →
      write_aws_shared_credentials st N = (st, .ret none)) ∧
    (st.world.openFailed credentialsPath = false → st.world.writeFailed credentialsPath = true →
      write_aws_shared_credentials st N =
        ({ st with
           world := setFile st.world credentialsPath ⟨.text "", fr.mode, st.world.now⟩ },
         .ret none)) ∧
    (st.world.openFailed credentialsPath = false → st.world.writeFailed credentialsPath = false →
      write_aws_shared_credentials st N =
        ({ st with
           world := setFile st.world credentialsPath
             ⟨.ini (sortSections (mergeSections (lowerKeys S) N)), fr.mode, st.world.now⟩ },
         .ret (some credentialsPath))) := by
  refine ⟨?_, ?_, ?_⟩
  · intro ho
    exact write_aws_shared_credentials_openfail st N []
      hsafe (read_aws_shared_credentials_openfail st fr hsafe hf hm ho) ho
  · intro ho hw
    have hread := read_aws_shared_credentials_ini st fr S hsafe hf hm ho hd hwf
    have htr : truncatedRec st.world credentialsPath = ⟨.text "", fr.mode, st.world.now⟩ := by
      unfold truncatedRec
      rw [hf]
    have h := write_aws_shared_credentials_writefail st N (lowerKeys S) hsafe hread ho hw
    rw [htr] at h
    exact h
  · intro ho hw
    have hread := read_aws_shared_credentials_ini st fr S hsafe hf hm ho hd hwf
    have hpm : prevMode st.world credentialsPath = fr.mode := by
      unfold prevMode
      rw [hf]
    have h := write_aws_shared_credentials_ok st N (lowerKeys S) hsafe hread ho hw
    rw [hpm] at h
    exact h

/-- A safe world holding a one-section credentials file on which every
write raises after the truncating `open` succeeded. -/
def wC4 : World :=
  { wEmptyCache with
    files := fun _ => some ⟨.ini [("A", [("k", "v")])], 384, 0⟩
    writeFailed := fun _ => true }

theorem C4_write_shared_failure_modes_counterexample :
    (write_aws_shared_credentials ⟨wC4, true⟩ [("B", [("x", "y")])]).2 = .ret none ∧
    (write_aws_shared_credentials ⟨wC4, true⟩ [("B", [("x", "y")])]).1.world.files
        credentialsPath = some ⟨.text "", 384, 0⟩ ∧
    (some ⟨.text "", 384, 0⟩ : Option FileRec) ≠
      some ⟨.ini [("A", [("k", "v")])], 384, 0⟩ := by
  refine ⟨rfl, rfl, ?_⟩
  intro h
  injection h with h2
  injection h2 with hdata _ _
  exact FileData.noConfusion hdata

def wC4ok : World :=
  { wEmptyCache with files := fun _ => some ⟨.ini [("A", [("k", "v")])], 384, 0⟩ }

theorem C4_write_shared_failure_modes_witness :
    write_aws_shared_credentials ⟨wC4ok, true⟩ [("B", [("x", "y")])] =
      ({ world := setFile wC4ok credentialsPath
           ⟨.ini (sortSections (mergeSections (lowerKeys [("A", [("k", "v")])])
              [("B", [("x", "y")])])), 384, 0⟩,
         safe := true }, .ret (some credentialsPath)) ∧
    write_aws_shared_credentials ⟨wC4, true⟩ [("B", [("x", "y")])] =
      ({ world := setFile wC4 credentialsPath ⟨.text "", 384, 0⟩, safe := true },
       .ret none) :=
  ⟨(C4_write_shared_failure_modes ⟨wC4ok, true⟩ [("B", [("x", "y")])]
      ⟨.ini [("A", [("k", "v")])], 384, 0⟩ [("A", [("k", "v")])]
      rfl rfl (by decide) rfl (by decide)).2.2 rfl rfl,
   (C4_write_shared_failure_modes ⟨wC4, true⟩ [("B", [("x", "y")])]
      ⟨.ini [("A", [("k", "v")])], 384, 0⟩ [("A", [("k", "v")])]
      rfl rfl (by decide) rfl (by decide)).2.1 rfl rfl⟩

/-! ### C7: frame preservation of unrelated sections and keys -/

/-- C7 (amended): merging is non-destructive only up to `ConfigParser`
key normalization. Option names are passed through `optionxform`
(`str.lower`) both when the existing file is read and when the new
sections are applied, so a mixed-case key such as `Foo` in `[A]` is
*not* preserved unchanged: it reappears as `foo`. What holds is:
every key of `[A]` as parsed (that is, lowercased) whose name is not
set by the new sections keeps its value in the rewritten file. -/
theorem C7_merge_preserves_unrelated_keys (st : CacheProc) (N : Sections) (fr : FileRec)
    (S : Sections) (A : String) (e0 : List (String × String))
    (hsafe : st.safe = true)
    (hf : st.world.files credentialsPath = some fr)
    (hm : ModeClean fr.mode)
    (hd : fr.data = .ini S)
    (hwf : WfIni (lowerKeys S))
    (ho : st.world.openFailed credentialsPath = false)
    (hw : st.world.writeFailed credentialsPath = false)
    (hndN : (N.map Prod.fst).Nodup)
    (hA : findSec (lowerKeys S) A = some e0) :
    ∃ eNew,
      (write_aws_shared_credentials st N).1.world.files credentialsPath =
        some ⟨.ini (sortSections (mergeSections (lowerKeys S) N)), fr.mode, st.world.now⟩ ∧
      findSec (sortSections (mergeSections (lowerKeys S) N)) A = some eNew ∧
      ∀ k v, lookupKey e0 k = some v →
        k ∉ keysOf (lowerPairs ((findSec N A).getD [])) →
        lookupKey eNew k = some v := by
  have hread := read_aws_shared_credentials_ini st fr S hsafe hf hm ho hd hwf
  have hwrite := write_aws_shared_credentials_ok st N (lowerKeys S) hsafe hread ho hw
  have hpm : prevMode st.world credentialsPath = fr.mode := by
    unfold prevMode
    rw [hf]
  rw [hpm] at hwrite
  have hfiles : (write_aws_shared_credentials st N).1.world.files credentialsPath =
      some ⟨.ini (sortSections (mergeSections (lowerKeys S) N)), fr.mode, st.world.now⟩ := by
    rw [hwrite]
    simp [setFile]
  have hndc : (secNames (lowerKeys S)).Nodup := hwf.1
  have hndM : (secNames (mergeSections (lowerKeys S) N)).Nodup :=
    nodup_secNames_mergeSections N _ hndc
  have hndF : (secNames (sortSections (mergeSections (lowerKeys S) N))).Nodup :=
    (((sortSections_perm (mergeSections (lowerKeys S) N)).map Prod.fst).nodup_iff).mpr hndM
  have hF : ∀ s, alookup (sortSections (mergeSections (lowerKeys S) N)) s =
      alookup (mergeSections (lowerKeys S) N) s :=
    fun s => alookup_perm (sortSections_perm (mergeSections (lowerKeys S) N)) hndF s
  cases hNA : alookup N A with
  | none =>
    refine ⟨e0, hfiles, ?_, ?_⟩
    · show alookup (sortSections (mergeSections (lowerKeys S) N)) A = some e0
      rw [hF A, alookup_mergeSections N _ A hndN, hNA]
      exact hA
    · intro k v hkv _
      exact hkv
  | some kvsA =>
    refine ⟨applyKvs e0 (lowerPairs kvsA), hfiles, ?_, ?_⟩
    · show alookup (sortSections (mergeSections (lowerKeys S) N)) A =
        some (applyKvs e0 (lowerPairs kvsA))
      rw [hF A, alookup_mergeSections N _ A hndN, hNA]
      dsimp only
      rw [show alookup (lowerKeys S) A = some e0 from hA]
      rfl
    · intro k v hkv hnk
      have hnk' : k ∉ keysOf (lowerPairs kvsA) := by
        rw [show findSec N A = some kvsA from hNA] at hnk
        exact hnk
      show alookup (applyKvs e0 (lowerPairs kvsA)) k = some v
      rw [alookup_applyKvs, lastVal_eq_none _ _ hnk',
        show alookup e0 k = some v from hkv]
      rfl

/-- An existing credentials file whose section `A` holds the
mixed-case key `Foo`. -/
def wC7 : World :=
  { wEmptyCache with files := fun _ => some ⟨.ini [("A", [("Foo", "v")])], 384, 0⟩ }

theorem C7_merge_preserves_unrelated_keys_counterexample :
    (write_aws_shared_credentials ⟨wC7, true⟩ [("A", [("x", "y")])]).1.world.files
        credentialsPath =
      some ⟨.ini [("A", [("foo", "v"), ("x", "y")])], 384, 0⟩ ∧
    findSec [("A", [("foo", "v"), ("x", "y")])] "A" = some [("foo", "v"), ("x", "y")] ∧
    lookupKey [("foo", "v"), ("x", "y")] "Foo" = none :=
  ⟨rfl, rfl, rfl⟩

def wC7w : World :=
  { wEmptyCache with
    files := fun _ => some ⟨.ini [("A", [("foo", "v0"), ("keep", "kv")])], 384, 0⟩ }

theorem C7_merge_preserves_unrelated_keys_witness :
    ∃ eNew,
      (write_aws_shared_credentials ⟨wC7w, true⟩ [("A", [("x", "y")])]).1.world.files
          credentialsPath =
        some ⟨.ini (sortSections (mergeSections
            (lowerKeys [("A", [("foo", "v0"), ("keep", "kv")])]) [("A", [("x", "y")])])),
          384, 0⟩ ∧
      findSec (sortSections (mergeSections
          (lowerKeys [("A", [("foo", "v0"), ("keep", "kv")])]) [("A", [("x", "y")])])) "A" =
        some eNew ∧
      ∀ k v, lookupKey [("foo", "v0"), ("keep", "kv")] k = some v →
        k ∉ keysOf (lowerPairs ((findSec [("A", [("x", "y")])] "A").getD [])) →
        lookupKey eNew k = some v :=
  C7_merge_preserves_unrelated_keys ⟨wC7w, true⟩ [("A", [("x", "y")])]
    ⟨.ini [("A", [("foo", "v0"), ("keep", "kv")])], 384, 0⟩
    [("A", [("foo", "v0"), ("keep", "kv")])] "A" [("foo", "v0"), ("keep", "kv")]
    rfl rfl (by decide) rfl (by decide) rfl rfl (by decide) rfl

/-! ### C8: idempotence of the shared-credentials merge -/

/-- C8: merging the same (duplicate-free) section set twice yields a
file byte-identical to merging it once. The second write reads back
the sorted merge of the first, merging `N` into it changes nothing
(every section of `N` is already present with exactly the merged
key-values), and re-sorting a sorted file is the identity, so the
stored section structure — hence `config.write`'s output bytes — is
unchanged, and both calls return the path. -/
theorem C8_write_shared_idempotent (st : CacheProc) (N : Sections) (fr : FileRec)
    (S : Sections)
    (hsafe : st.safe = true)
    (hf : st.world.files credentialsPath = some fr)
    (hm : ModeClean fr.mode)
    (hd : fr.data = .ini S)
    (hwf : WfIni (lowerKeys S))
    (ho : st.world.openFailed credentialsPath = false)
    (hw : st.world.writeFailed credentialsPath = false)
    (hndN : (N.map Prod.fst).Nodup) :
    ∃ fr1 fr2,
      (write_aws_shared_credentials st N).1.world.files credentialsPath = some fr1 ∧
      (write_aws_shared_credentials (write_aws_shared_credentials st N).1 N).1.world.files
          credentialsPath = some fr2 ∧
      fr1.data = .ini (sortSections (mergeSections (lowerKeys S) N)) ∧
      fr2.data = fr1.data ∧
      (∀ s1 s2, fr1.data = .ini s1 → fr2.data = .ini s2 → renderIni s2 = renderIni s1) ∧
      (write_aws_shared_credentials st N).2 = .ret (some credentialsPath) ∧
      (write_aws_shared_credentials (write_aws_shared_credentials st N).1 N).2 =
        .ret (some credentialsPath) := by
  have hread := read_aws_shared_credentials_ini st fr S hsafe hf hm ho hd hwf
  have hwrite1 := write_aws_shared_credentials_ok st N (lowerKeys S) hsafe hread ho hw
  have hpm : prevMode st.world credentialsPath = fr.mode := by
    unfold prevMode
    rw [hf]
  rw [hpm] at hwrite1
  have hfiles1 : (write_aws_shared_credentials st N).1.world.files credentialsPath =
      some ⟨.ini (sortSections (mergeSections (lowerKeys S) N)), fr.mode, st.world.now⟩ := by
    rw [hwrite1]
    simp [setFile]
  have hsafe1 : (write_aws_shared_credentials st N).1.safe = true := by
    rw [hwrite1]
    exact hsafe
  have ho1 : (write_aws_shared_credentials st N).1.world.openFailed credentialsPath = false := by
    rw [hwrite1]
    exact ho
  have hw1 : (write_aws_shared_credentials st N).1.world.writeFailed credentialsPath = false := by
    rw [hwrite1]
    exact hw
  have hndc : (secNames (lowerKeys S)).Nodup := hwf.1
  have hkc : NodupKeys (lowerKeys S) := hwf.2
  have hndM : (secNames (mergeSections (lowerKeys S) N)).Nodup :=
    nodup_secNames_mergeSections N _ hndc
  have hndF : (secNames (sortSections (mergeSections (lowerKeys S) N))).Nodup :=
    (((sortSections_perm (mergeSections (lowerKeys S) N)).map Prod.fst).nodup_iff).mpr hndM
  have hkF : NodupKeys (sortSections (mergeSections (lowerKeys S) N)) :=
    nodupKeys_sortSections _ (nodupKeys_mergeSections N _ hkc)
  have hKL : KeysLower (sortSections (mergeSections (lowerKeys S) N)) :=
    keysLower_sortSections _ (keysLower_mergeSections N _ (keysLower_lowerKeys S))
  have hlow : lowerKeys (sortSections (mergeSections (lowerKeys S) N)) =
      sortSections (mergeSections (lowerKeys S) N) := lowerKeys_eq_self _ hKL
  have hwfF : WfIni (lowerKeys (sortSections (mergeSections (lowerKeys S) N))) := by
    rw [hlow]
    exact ⟨hndF, hkF⟩
  have hread1 := read_aws_shared_credentials_ini (write_aws_shared_credentials st N).1
    ⟨.ini (sortSections (mergeSections (lowerKeys S) N)), fr.mode, st.world.now⟩
    (sortSections (mergeSections (lowerKeys S) N)) hsafe1 hfiles1 hm ho1 rfl hwfF
  rw [hlow] at hread1
  have hwrite2 := write_aws_shared_credentials_ok (write_aws_shared_credentials st N).1 N
    (sortSections (mergeSections (lowerKeys S) N)) hsafe1 hread1 ho1 hw1
  have habs : mergeSections (sortSections (mergeSections (lowerKeys S) N)) N =
      sortSections (mergeSections (lowerKeys S) N) :=
    mergeSections_self_eq (lowerKeys S) N hndN hndc hkc
  have hsorted : sortSections (sortSections (mergeSections (lowerKeys S) N)) =
      sortSections (mergeSections (lowerKeys S) N) :=
    sortSections_of_sorted _ (sortSections_sorted (mergeSections (lowerKeys S) N))
  have hpm1 : prevMode (write_aws_shared_credentials st N).1.world credentialsPath =
      fr.mode := by
    unfold prevMode
    rw [hfiles1]
  rw [habs, hsorted, hpm1] at hwrite2
  have hfiles2 : (write_aws_shared_credentials (write_aws_shared_credentials st N).1 N).1.world.files
      credentialsPath =
      some ⟨.ini (sortSections (mergeSections (lowerKeys S) N)), fr.mode,
        (write_aws_shared_credentials st N).1.world.now⟩ := by
    rw [hwrite2]
    simp [setFile]
  refine ⟨⟨.ini (sortSections (mergeSections (lowerKeys S) N)), fr.mode, st.world.now⟩,
    ⟨.ini (sortSections (mergeSections (lowerKeys S) N)), fr.mode,
      (write_aws_shared_credentials st N).1.world.now⟩,
    hfiles1, hfiles2, rfl, rfl, ?_, ?_, ?_⟩
  · intro s1 s2 h1 h2
    injection h1 with e1
    injection h2 with e2
    rw [← e1, ← e2]
  · rw [hwrite1]
  · rw [hwrite2]

def wC8 : World :=
  { wEmptyCache with files := fun _ => some ⟨.ini [("a", [("k", "v")])], 384, 0⟩ }

theorem C8_write_shared_idempotent_witness :
    ∃ fr1 fr2,
      (write_aws_shared_credentials ⟨wC8, true⟩ [("a", [("x", "y")])]).1.world.files
          credentialsPath = some fr1 ∧
      (write_aws_shared_credentials
          (write_aws_shared_credentials ⟨wC8, true⟩ [("a", [("x", "y")])]).1
          [("a", [("x", "y")])]).1.world.files credentialsPath = some fr2 ∧
      fr1.data = .ini (sortSections (mergeSections (lowerKeys [("a", [("k", "v")])])
        [("a", [("x", "y")])])) ∧
      fr2.data = fr1.data ∧
      (∀ s1 s2, fr1.data = .ini s1 → fr2.data = .ini s2 → renderIni s2 = renderIni s1) ∧
      (write_aws_shared_credentials ⟨wC8, true⟩ [("a", [("x", "y")])]).2 =
        .ret (some credentialsPath) ∧
      (write_aws_shared_credentials
          (write_aws_shared_credentials ⟨wC8, true⟩ [("a", [("x", "y")])]).1
          [("a", [("x", "y")])]).2 = .ret (some credentialsPath) :=
  C8_write_shared_idempotent ⟨wC8, true⟩ [("a", [("x", "y")])]
    ⟨.ini [("a", [("k", "v")])], 384, 0⟩ [("a", [("k", "v")])]
    rfl rfl (by decide) rfl (by decide) rfl rfl (by decide)
